import Mathlib

set_option maxRecDepth 400000

/-!
# Verification of the opencode-mcp-server async-reply and pagination core

This development embeds, in Lean, the core logic of `src/index.ts` of the
opencode-mcp-server repository: the handle and cursor codecs (base64url over a
UTF-8 encoded JSON serialization), the field-projection and token-budgeted
pagination engine behind `opencode_get_messages`, and the polling loop behind
`opencode_chat_async` / `opencode_wait_for_reply`.

JavaScript runtime values that the source manipulates through `JSON.stringify`,
`JSON.parse` and `Buffer` are modelled by an inductive `Json` type together
with executable serializers, parsers and byte codecs.  JavaScript numbers are
modelled as integers (`Int`): every number the source produces or consumes in
the verified paths — offsets, counts, epoch milliseconds, token estimates — is
integral and far below 2^53, where JavaScript doubles are exact.
-/

namespace OC

/-- Model of the JavaScript values the source passes through `JSON.stringify` /
`JSON.parse`: null, booleans, numbers (integral, see module comment), strings,
arrays, and objects as insertion-ordered key/value lists. -/
inductive Json where
  | null : Json
  | bool : Bool → Json
  | num : Int → Json
  | str : String → Json
  | arr : List Json → Json
  | obj : List (String × Json) → Json

mutual

/-- Structural boolean equality on `Json`. -/
def jeq : Json → Json → Bool
  | .null, .null => true
  | .bool a, .bool b => a == b
  | .num a, .num b => a == b
  | .str a, .str b => a == b
  | .arr a, .arr b => jeqList a b
  | .obj a, .obj b => jeqFields a b
  | _, _ => false

/-- Pointwise boolean equality on lists of `Json`. -/
def jeqList : List Json → List Json → Bool
  | [], [] => true
  | x :: xs, y :: ys => jeq x y && jeqList xs ys
  | _, _ => false

/-- Pointwise boolean equality on object field lists. -/
def jeqFields : List (String × Json) → List (String × Json) → Bool
  | [], [] => true
  | (k, v) :: xs, (l, w) :: ys => k == l && jeq v w && jeqFields xs ys
  | _, _ => false

end

mutual

theorem jeq_iff : ∀ a b : Json, jeq a b = true ↔ a = b
  | .null, .null => by simp [jeq]
  | .bool _, .bool _ => by simp [jeq]
  | .num _, .num _ => by simp [jeq]
  | .str _, .str _ => by simp [jeq]
  | .arr x, .arr y => by simp [jeq, jeqList_iff x y]
  | .obj x, .obj y => by simp [jeq, jeqFields_iff x y]
  | .null, .bool _ | .null, .num _ | .null, .str _ | .null, .arr _ | .null, .obj _
  | .bool _, .null | .bool _, .num _ | .bool _, .str _ | .bool _, .arr _ | .bool _, .obj _
  | .num _, .null | .num _, .bool _ | .num _, .str _ | .num _, .arr _ | .num _, .obj _
  | .str _, .null | .str _, .bool _ | .str _, .num _ | .str _, .arr _ | .str _, .obj _
  | .arr _, .null | .arr _, .bool _ | .arr _, .num _ | .arr _, .str _ | .arr _, .obj _
  | .obj _, .null | .obj _, .bool _ | .obj _, .num _ | .obj _, .str _ | .obj _, .arr _ => by
    simp [jeq]

theorem jeqList_iff : ∀ xs ys : List Json, jeqList xs ys = true ↔ xs = ys
  | [], [] => by simp [jeqList]
  | x :: xs, y :: ys => by simp [jeqList, jeq_iff x y, jeqList_iff xs ys]
  | [], _ :: _ => by simp [jeqList]
  | _ :: _, [] => by simp [jeqList]

theorem jeqFields_iff : ∀ xs ys : List (String × Json), jeqFields xs ys = true ↔ xs = ys
  | [], [] => by simp [jeqFields]
  | (_, v) :: xs, (_, w) :: ys => by
    simp [jeqFields, jeq_iff v w, jeqFields_iff xs ys, and_assoc]
  | [], _ :: _ => by simp [jeqFields]
  | _ :: _, [] => by simp [jeqFields]

end

instance : DecidableEq Json := fun a b => decidable_of_iff _ (jeq_iff a b)

/-- UTF-16 length of one character, as JavaScript's `String.prototype.length`
counts it: astral characters occupy two code units. -/
def jsCharLen (c : Char) : Nat := if c.toNat < 0x10000 then 1 else 2

/-- JavaScript `string.length`: the number of UTF-16 code units. -/
def jsLength (s : List Char) : Nat := (s.map jsCharLen).sum

/-- Source `estimateTokensFromString`: `Math.ceil(value.length / 4)`. -/
def estimateTokensFromString (s : List Char) : Nat := (jsLength s + 3) / 4

/-- Lower-case hexadecimal digit, as `JSON.stringify` emits in escapes. -/
def hexDigitChar (n : Nat) : Char :=
  if n < 10 then Char.ofNat (48 + n) else Char.ofNat (87 + n)

/-- `JSON.stringify` escaping of a single character inside a string literal:
quote and backslash are backslash-escaped, the named control escapes are used
for backspace, tab, newline, form feed and carriage return, any other control
character becomes a `\u00XX` escape, and every other character is copied. -/
def escapeChar (c : Char) : List Char :=
  if c = '"' then ['\\', '"']
  else if c = '\\' then ['\\', '\\']
  else if c = '\x08' then ['\\', 'b']
  else if c = '\x09' then ['\\', 't']
  else if c = '\x0a' then ['\\', 'n']
  else if c = '\x0c' then ['\\', 'f']
  else if c = '\x0d' then ['\\', 'r']
  else if c.toNat < 0x20 then
    ['\\', 'u', '0', '0', hexDigitChar (c.toNat / 16), hexDigitChar (c.toNat % 16)]
  else [c]

/-- Body of a `JSON.stringify` string literal (without the enclosing quotes). -/
def escapeBody (s : List Char) : List Char := s.flatMap escapeChar

/-- Big-endian decimal digit characters of `n`, accumulated onto `acc`;
the fuel argument only bounds the recursion depth (one digit per step, so
any fuel at least `n` is enough) and is never exhausted from `natChars`. -/
def natCharsGo : Nat → Nat → List Char → List Char
  | 0, _, acc => acc
  | f + 1, n, acc =>
    if n = 0 then acc else natCharsGo f (n / 10) (Char.ofNat (48 + n % 10) :: acc)

/-- Decimal digits of a natural number, most significant first, as
JavaScript renders integral numbers. -/
def natChars (m : Nat) : List Char :=
  if m = 0 then ['0'] else natCharsGo m m []

/-- JavaScript rendering of an integral number. -/
def intChars (n : Int) : List Char :=
  if n < 0 then '-' :: natChars n.natAbs else natChars n.natAbs

mutual

/-- `JSON.stringify` (compact form, as used for all token estimates and for
the codec encodings in the source). -/
def jserialize : Json → List Char
  | .null => "null".data
  | .bool true => "true".data
  | .bool false => "false".data
  | .num n => intChars n
  | .str s => '"' :: (escapeBody s.data ++ ['"'])
  | .arr xs => '[' :: (jserializeItems xs ++ [']'])
  | .obj fs => '\x7b' :: (jserializeFields fs ++ ['\x7d'])

/-- Comma-separated serialization of array elements. -/
def jserializeItems : List Json → List Char
  | [] => []
  | [x] => jserialize x
  | x :: y :: rest => jserialize x ++ ',' :: jserializeItems (y :: rest)

/-- Comma-separated serialization of object members, insertion order. -/
def jserializeFields : List (String × Json) → List Char
  | [] => []
  | [(k, v)] => '"' :: (escapeBody k.data ++ '"' :: ':' :: jserialize v)
  | (k, v) :: f :: rest =>
      '"' :: (escapeBody k.data ++ '"' :: ':' :: jserialize v) ++ ',' :: jserializeFields (f :: rest)

end

/-- Source `estimateTokensFromObject`: estimate on the `JSON.stringify` text. -/
def estimateTokensFromObject (j : Json) : Nat :=
  estimateTokensFromString (jserialize j)

end OC

namespace OC

/-- UTF-8 encoding of one Unicode scalar value (1–4 bytes), as
`Buffer.from(text, "utf8")` produces. -/
def utf8EncodeChar (c : Char) : List Nat :=
  let n := c.toNat
  if n < 0x80 then [n]
  else if n < 0x800 then [0xC0 + n / 64, 0x80 + n % 64]
  else if n < 0x10000 then [0xE0 + n / 4096, 0x80 + n / 64 % 64, 0x80 + n % 64]
  else [0xF0 + n / 262144, 0x80 + n / 4096 % 64, 0x80 + n / 64 % 64, 0x80 + n % 64]

/-- UTF-8 encoding of a string as a byte list. -/
def utf8Encode (s : List Char) : List Nat := s.flatMap utf8EncodeChar

/-- Continuation byte test (`10xxxxxx`). -/
def isCont (b : Nat) : Bool := 0x80 ≤ b && b < 0xC0

/-- The U+FFFD replacement character used by lossy decoding. -/
def replChar : Char := Char.ofNat 0xFFFD

/-- Scalar value assembled from a two-byte sequence. -/
def seq2Val (b b1 : Nat) : Nat := (b - 0xC0) * 64 + (b1 - 0x80)

/-- Scalar value assembled from a three-byte sequence. -/
def seq3Val (b b1 b2 : Nat) : Nat := (b - 0xE0) * 4096 + (b1 - 0x80) * 64 + (b2 - 0x80)

/-- Scalar value assembled from a four-byte sequence. -/
def seq4Val (b b1 b2 b3 : Nat) : Nat :=
  (b - 0xF0) * 262144 + (b1 - 0x80) * 4096 + (b2 - 0x80) * 64 + (b3 - 0x80)

/-- Well-formedness of a three-byte sequence: continuation bytes, not
overlong, not a surrogate encoding. -/
def ok3 (b b1 b2 : Nat) : Bool :=
  isCont b1 && isCont b2 && decide (0x800 ≤ seq3Val b b1 b2)
    && !(decide (0xD800 ≤ seq3Val b b1 b2) && decide (seq3Val b b1 b2 < 0xE000))

/-- Well-formedness of a four-byte sequence: continuation bytes, not
overlong, in Unicode range. -/
def ok4 (b b1 b2 b3 : Nat) : Bool :=
  isCont b1 && isCont b2 && isCont b3 && decide (0x10000 ≤ seq4Val b b1 b2 b3)
    && decide (seq4Val b b1 b2 b3 < 0x110000)

/-- One pass of lossy UTF-8 decoding; the fuel argument only bounds the
recursion depth (each step consumes at least one byte, so any fuel at least
the byte count is enough) and is never exhausted from `utf8Decode`. -/
def utf8DecodeF : Nat → List Nat → List Char
  | 0, _ => []
  | _ + 1, [] => []
  | f + 1, b :: rest =>
    if b < 0x80 then Char.ofNat b :: utf8DecodeF f rest
    else if b < 0xC2 then replChar :: utf8DecodeF f rest
    else if b < 0xE0 then
      match rest with
      | [] => [replChar]
      | b1 :: rest1 =>
        if isCont b1 then Char.ofNat (seq2Val b b1) :: utf8DecodeF f rest1
        else replChar :: utf8DecodeF f (b1 :: rest1)
    else if b < 0xF0 then
      match rest with
      | b1 :: b2 :: rest2 =>
        if ok3 b b1 b2 then Char.ofNat (seq3Val b b1 b2) :: utf8DecodeF f rest2
        else replChar :: utf8DecodeF f (b1 :: b2 :: rest2)
      | r => replChar :: utf8DecodeF f r
    else if b < 0xF5 then
      match rest with
      | b1 :: b2 :: b3 :: rest3 =>
        if ok4 b b1 b2 b3 then Char.ofNat (seq4Val b b1 b2 b3) :: utf8DecodeF f rest3
        else replChar :: utf8DecodeF f (b1 :: b2 :: b3 :: rest3)
      | r => replChar :: utf8DecodeF f r
    else replChar :: utf8DecodeF f rest

/-- Lossy UTF-8 decoding, as `buffer.toString("utf8")` performs: well-formed
sequences decode to their scalar value, malformed bytes become U+FFFD and
decoding continues (overlong forms, surrogate encodings and out-of-range
values are malformed). -/
def utf8Decode (bs : List Nat) : List Char := utf8DecodeF bs.length bs

/-- base64url digit for a 6-bit value, alphabet `A-Za-z0-9-_`. -/
def b64Char (n : Nat) : Char :=
  if n < 26 then Char.ofNat (65 + n)
  else if n < 52 then Char.ofNat (97 + (n - 26))
  else if n < 62 then Char.ofNat (48 + (n - 52))
  else if n = 62 then '-' else '_'

/-- Inverse of `b64Char`; `none` for characters outside the alphabet. -/
def b64Val (c : Char) : Option Nat :=
  let n := c.toNat
  if 65 ≤ n && n ≤ 90 then some (n - 65)
  else if 97 ≤ n && n ≤ 122 then some (n - 97 + 26)
  else if 48 ≤ n && n ≤ 57 then some (n - 48 + 52)
  else if n = 45 then some 62
  else if n = 95 then some 63
  else none

/-- `buffer.toString("base64url")`: unpadded base64url text of a byte list. -/
def base64urlEncode : List Nat → List Char
  | [] => []
  | [b0] => [b64Char (b0 / 4), b64Char (b0 % 4 * 16)]
  | [b0, b1] => [b64Char (b0 / 4), b64Char (b0 % 4 * 16 + b1 / 16), b64Char (b1 % 16 * 4)]
  | b0 :: b1 :: b2 :: rest =>
      b64Char (b0 / 4) :: b64Char (b0 % 4 * 16 + b1 / 16)
        :: b64Char (b1 % 16 * 4 + b2 / 64) :: b64Char (b2 % 64) :: base64urlEncode rest

/-- Reassemble bytes from 6-bit groups: full quadruples give three bytes, a
trailing triple two bytes, a trailing pair one byte, and a lone leftover
nothing, as Node's forgiving base64 decoder behaves without padding. -/
def b64Quads : List Nat → List Nat
  | v0 :: v1 :: v2 :: v3 :: rest =>
      (v0 * 4 + v1 / 16) :: (v1 % 16 * 16 + v2 / 4) :: (v2 % 4 * 64 + v3) :: b64Quads rest
  | [v0, v1, v2] => [v0 * 4 + v1 / 16, v1 % 16 * 16 + v2 / 4]
  | [v0, v1] => [v0 * 4 + v1 / 16]
  | _ => []

/-- `Buffer.from(text, "base64url")`: characters outside the alphabet are
ignored, then 6-bit groups are packed into bytes. -/
def base64urlDecode (s : List Char) : List Nat := b64Quads (s.filterMap b64Val)

end OC

namespace OC

theorem char_valid (c : Char) :
    c.toNat < 55296 ∨ (57343 < c.toNat ∧ c.toNat < 1114112) := by
  have h := c.valid
  unfold UInt32.isValidChar Nat.isValidChar at h
  rcases h with h | ⟨h1, h2⟩
  · left
    exact h
  · right
    exact ⟨h1, h2⟩

theorem utf8DecodeF_irrel : ∀ (f g : Nat) (bs : List Nat), bs.length ≤ f →
    bs.length ≤ g → utf8DecodeF f bs = utf8DecodeF g bs
  | 0, 0, bs, _, _ => rfl
  | 0, _ + 1, bs, hf, _ => by
    have : bs = [] := List.length_eq_zero.1 (by omega)
    subst this
    rfl
  | _ + 1, 0, bs, _, hg => by
    have : bs = [] := List.length_eq_zero.1 (by omega)
    subst this
    rfl
  | f + 1, g + 1, [], _, _ => rfl
  | f + 1, g + 1, b :: rest, hf, hg => by
    simp only [List.length_cons] at hf hg
    rw [utf8DecodeF.eq_def]
    rw [utf8DecodeF.eq_def]
    simp only []
    have ih0 := utf8DecodeF_irrel f g rest (by omega) (by omega)
    by_cases h1 : b < 0x80
    · rw [if_pos h1, if_pos h1, ih0]
    · rw [if_neg h1, if_neg h1]
      by_cases h2 : b < 0xC2
      · rw [if_pos h2, if_pos h2, ih0]
      · rw [if_neg h2, if_neg h2]
        by_cases h3 : b < 0xE0
        · rw [if_pos h3, if_pos h3]
          match rest, hf, hg, ih0 with
          | [], _, _, _ => rfl
          | b1 :: rest1, hf, hg, ih0 =>
            simp only [List.length_cons] at hf hg
            have ih1 := utf8DecodeF_irrel f g rest1 (by omega) (by omega)
            by_cases hc : isCont b1
            · simp only [if_pos hc, ih1]
            · simp only [if_neg hc, ih0]
        · rw [if_neg h3, if_neg h3]
          by_cases h4 : b < 0xF0
          · rw [if_pos h4, if_pos h4]
            match rest, hf, hg, ih0 with
            | [], _, _, ih0 => simp only [ih0]
            | [b1], _, _, ih0 => simp only [ih0]
            | b1 :: b2 :: rest2, hf, hg, ih0 =>
              simp only [List.length_cons] at hf hg
              have ih2 := utf8DecodeF_irrel f g rest2 (by omega) (by omega)
              by_cases hc : ok3 b b1 b2
              · simp only [if_pos hc, ih2]
              · simp only [if_neg hc, ih0]
          · rw [if_neg h4, if_neg h4]
            by_cases h5 : b < 0xF5
            · rw [if_pos h5, if_pos h5]
              match rest, hf, hg, ih0 with
              | [], _, _, ih0 => simp only [ih0]
              | [b1], _, _, ih0 => simp only [ih0]
              | [b1, b2], _, _, ih0 => simp only [ih0]
              | b1 :: b2 :: b3 :: rest3, hf, hg, ih0 =>
                simp only [List.length_cons] at hf hg
                have ih3 := utf8DecodeF_irrel f g rest3 (by omega) (by omega)
                by_cases hc : ok4 b b1 b2 b3
                · simp only [if_pos hc, ih3]
                · simp only [if_neg hc, ih0]
            · rw [if_neg h5, if_neg h5, ih0]

theorem utf8Decode_encodeChar (c : Char) (rest : List Nat) :
    utf8Decode (utf8EncodeChar c ++ rest) = c :: utf8Decode rest := by
  have hv := char_valid c
  have hofn := Char.ofNat_toNat c
  unfold utf8Decode
  unfold utf8EncodeChar
  by_cases h1 : c.toNat < 0x80
  · simp only [if_pos h1, List.cons_append, List.nil_append, List.length_cons]
    rw [utf8DecodeF.eq_def]
    simp only []
    rw [if_pos h1, hofn]
  · by_cases h2 : c.toNat < 0x800
    · simp only [if_neg h1, if_pos h2, List.cons_append, List.nil_append, List.length_cons]
      rw [utf8DecodeF.eq_def]
      simp only []
      rw [if_neg (by omega), if_neg (by omega), if_pos (by omega)]
      have hc : isCont (0x80 + c.toNat % 64) = true := by
        simp only [isCont, Bool.and_eq_true, decide_eq_true_eq]
        omega
      rw [if_pos hc]
      have harith : seq2Val (0xC0 + c.toNat / 64) (0x80 + c.toNat % 64) = c.toNat := by
        unfold seq2Val
        omega
      rw [harith, hofn, utf8DecodeF_irrel (rest.length + 1) rest.length rest (by omega) le_rfl]
    · by_cases h3 : c.toNat < 0x10000
      · simp only [if_neg h1, if_neg h2, if_pos h3, List.cons_append, List.nil_append,
          List.length_cons]
        rw [utf8DecodeF.eq_def]
        simp only []
        rw [if_neg (by omega), if_neg (by omega), if_neg (by omega), if_pos (by omega)]
        have harith : seq3Val (0xE0 + c.toNat / 4096) (0x80 + c.toNat / 64 % 64)
            (0x80 + c.toNat % 64) = c.toNat := by
          unfold seq3Val
          omega
        have hc : ok3 (0xE0 + c.toNat / 4096) (0x80 + c.toNat / 64 % 64)
            (0x80 + c.toNat % 64) = true := by
          unfold ok3
          rw [harith]
          simp only [isCont, Bool.and_eq_true, Bool.not_eq_eq_eq_not, Bool.not_true,
            Bool.and_eq_false_imp, decide_eq_true_eq, decide_eq_false_iff_not]
          refine ⟨⟨⟨?_, ?_⟩, ?_⟩, ?_⟩ <;> omega
        rw [if_pos hc, harith, hofn,
          utf8DecodeF_irrel (rest.length + 2) rest.length rest (by omega) le_rfl]
      · simp only [if_neg h1, if_neg h2, if_neg h3, List.cons_append, List.nil_append,
          List.length_cons]
        rw [utf8DecodeF.eq_def]
        simp only []
        rw [if_neg (by omega), if_neg (by omega), if_neg (by omega), if_neg (by omega),
          if_pos (by omega)]
        have harith : seq4Val (0xF0 + c.toNat / 262144) (0x80 + c.toNat / 4096 % 64)
            (0x80 + c.toNat / 64 % 64) (0x80 + c.toNat % 64) = c.toNat := by
          unfold seq4Val
          omega
        have hc : ok4 (0xF0 + c.toNat / 262144) (0x80 + c.toNat / 4096 % 64)
            (0x80 + c.toNat / 64 % 64) (0x80 + c.toNat % 64) = true := by
          unfold ok4
          rw [harith]
          simp only [isCont, Bool.and_eq_true, decide_eq_true_eq]
          refine ⟨⟨⟨⟨?_, ?_⟩, ?_⟩, ?_⟩, ?_⟩ <;> omega
        rw [if_pos hc, harith, hofn,
          utf8DecodeF_irrel (rest.length + 3) rest.length rest (by omega) le_rfl]

/-- UTF-8 decoding is a left inverse of UTF-8 encoding. -/
theorem utf8_roundtrip : ∀ s : List Char, utf8Decode (utf8Encode s) = s
  | [] => rfl
  | c :: s => by
    unfold utf8Encode
    rw [List.flatMap_cons, utf8Decode_encodeChar]
    exact congrArg (c :: ·) (utf8_roundtrip s)

theorem b64Val_b64Char : ∀ n : Nat, n < 64 → b64Val (b64Char n) = some n := by decide

theorem base64url_roundtrip : ∀ bs : List Nat, (∀ b ∈ bs, b < 256) →
    base64urlDecode (base64urlEncode bs) = bs
  | [], _ => rfl
  | [b0], h => by
    have hb0 : b0 < 256 := h b0 (by simp)
    unfold base64urlDecode base64urlEncode
    rw [List.filterMap_cons, List.filterMap_cons,
      b64Val_b64Char _ (by omega), b64Val_b64Char _ (by omega)]
    simp only [List.filterMap_nil]
    unfold b64Quads
    have : b0 / 4 * 4 + (b0 % 4 * 16) / 16 = b0 := by omega
    rw [this]
  | [b0, b1], h => by
    have hb0 : b0 < 256 := h b0 (by simp)
    have hb1 : b1 < 256 := h b1 (by simp)
    unfold base64urlDecode base64urlEncode
    rw [List.filterMap_cons, List.filterMap_cons, List.filterMap_cons,
      b64Val_b64Char _ (by omega), b64Val_b64Char _ (by omega), b64Val_b64Char _ (by omega)]
    simp only [List.filterMap_nil]
    unfold b64Quads
    have e1 : b0 / 4 * 4 + (b0 % 4 * 16 + b1 / 16) / 16 = b0 := by omega
    have e2 : (b0 % 4 * 16 + b1 / 16) % 16 * 16 + (b1 % 16 * 4) / 4 = b1 := by omega
    rw [e1, e2]
  | b0 :: b1 :: b2 :: rest, h => by
    have hb0 : b0 < 256 := h b0 (by simp)
    have hb1 : b1 < 256 := h b1 (by simp)
    have hb2 : b2 < 256 := h b2 (by simp)
    have ih := base64url_roundtrip rest (fun b hb => h b (by simp [hb]))
    unfold base64urlDecode at ih ⊢
    show b64Quads ((b64Char (b0 / 4) :: b64Char (b0 % 4 * 16 + b1 / 16)
        :: b64Char (b1 % 16 * 4 + b2 / 64) :: b64Char (b2 % 64)
        :: base64urlEncode rest).filterMap b64Val) = b0 :: b1 :: b2 :: rest
    rw [List.filterMap_cons, List.filterMap_cons, List.filterMap_cons, List.filterMap_cons,
      b64Val_b64Char _ (by omega), b64Val_b64Char _ (by omega),
      b64Val_b64Char _ (by omega), b64Val_b64Char _ (by omega)]
    unfold b64Quads
    have e1 : b0 / 4 * 4 + (b0 % 4 * 16 + b1 / 16) / 16 = b0 := by omega
    have e2 : (b0 % 4 * 16 + b1 / 16) % 16 * 16 + (b1 % 16 * 4 + b2 / 64) / 4 = b1 := by omega
    have e3 : (b1 % 16 * 4 + b2 / 64) % 4 * 64 + b2 % 64 = b2 := by omega
    rw [e1, e2, e3, ih]

end OC

namespace OC

/-- JSON insignificant whitespace. -/
def isJsonWs (c : Char) : Bool := c = ' ' || c = '\x09' || c = '\x0a' || c = '\x0d'

/-- Drop leading JSON whitespace. -/
def skipWs : List Char → List Char
  | [] => []
  | c :: rest => if isJsonWs c then skipWs rest else c :: rest

/-- ASCII decimal digit test. -/
def isDigitChar (c : Char) : Bool := 48 ≤ c.toNat && c.toNat ≤ 57

/-- Hexadecimal digit value, any case; `none` otherwise. -/
def hexVal (c : Char) : Option Nat :=
  let n := c.toNat
  if 48 ≤ n && n ≤ 57 then some (n - 48)
  else if 97 ≤ n && n ≤ 102 then some (n - 97 + 10)
  else if 65 ≤ n && n ≤ 70 then some (n - 65 + 10)
  else none

/-- Value of four hexadecimal digits, most significant first. -/
def hexQuad (h1 h2 h3 h4 : Char) : Option Nat :=
  match hexVal h1, hexVal h2, hexVal h3, hexVal h4 with
  | some v1, some v2, some v3, some v4 => some (v1 * 4096 + v2 * 256 + v3 * 16 + v4)
  | _, _, _, _ => none

/-- One pass of parsing a JSON string-literal body up to its closing quote,
handling the escape sequences of the JSON grammar; unescaped control
characters are rejected, as `JSON.parse` rejects them.  The fuel argument
only bounds the recursion depth (each step consumes at least one character,
so any fuel at least the character count is enough) and is never exhausted
from `parseStringBody`.  (Model restriction: a `\uXXXX` escape denoting a
lone surrogate is rejected rather than kept, and surrogate pairs are not
combined; the strings this development feeds through the parser never
contain either.) -/
def parseStringBodyF : Nat → List Char → Option (List Char × List Char)
  | 0, _ => none
  | _ + 1, [] => none
  | f + 1, c :: rest =>
    if c = '"' then some ([], rest)
    else if c = '\\' then
      match rest with
      | [] => none
      | e :: rest1 =>
        if e = '"' then (parseStringBodyF f rest1).map (fun p => ('"' :: p.1, p.2))
        else if e = '\\' then (parseStringBodyF f rest1).map (fun p => ('\\' :: p.1, p.2))
        else if e = '/' then (parseStringBodyF f rest1).map (fun p => ('/' :: p.1, p.2))
        else if e = 'b' then (parseStringBodyF f rest1).map (fun p => ('\x08' :: p.1, p.2))
        else if e = 't' then (parseStringBodyF f rest1).map (fun p => ('\x09' :: p.1, p.2))
        else if e = 'n' then (parseStringBodyF f rest1).map (fun p => ('\x0a' :: p.1, p.2))
        else if e = 'f' then (parseStringBodyF f rest1).map (fun p => ('\x0c' :: p.1, p.2))
        else if e = 'r' then (parseStringBodyF f rest1).map (fun p => ('\x0d' :: p.1, p.2))
        else if e = 'u' then
          match rest1 with
          | h1 :: h2 :: h3 :: h4 :: rest2 =>
            match hexQuad h1 h2 h3 h4 with
            | some n =>
              if n < 0xD800 || 0xDFFF < n then
                (parseStringBodyF f rest2).map (fun p => (Char.ofNat n :: p.1, p.2))
              else none
            | none => none
          | _ => none
        else none
    else if c.toNat < 0x20 then none
    else (parseStringBodyF f rest).map (fun p => (c :: p.1, p.2))

/-- Parse the body of a JSON string literal up to its closing quote. -/
def parseStringBody (cs : List Char) : Option (List Char × List Char) :=
  parseStringBodyF cs.length cs

/-- Longest prefix of decimal digits and the remainder. -/
def spanDigits : List Char → (List Char × List Char)
  | [] => ([], [])
  | c :: rest =>
    if isDigitChar c then
      let p := spanDigits rest
      (c :: p.1, p.2)
    else ([], c :: rest)

/-- Numeric value of a digit string, most significant first. -/
def digitsVal (ds : List Char) : Nat :=
  ds.foldl (fun a c => a * 10 + (c.toNat - 48)) 0

/-- Digit-run parse shared by both signs of `parseNumber`: a nonempty digit
run without a redundant leading zero, valued by `digitsVal`. -/
def parseDigitRun (cs : List Char) : Option (Nat × List Char) :=
  match spanDigits cs with
  | ([], _) => none
  | (d :: ds, rest1) =>
    if d = '0' ∧ ds ≠ [] then none
    else some (digitsVal (d :: ds), rest1)

/-- Parse a JSON number.  (Model restriction: only integral numbers — an
optional minus sign and a digit run without leading zeros; fractional and
exponent forms are rejected, matching the integral-number model used
throughout this development.) -/
def parseNumber (cs : List Char) : Option (Json × List Char) :=
  match cs with
  | [] => none
  | c :: rest =>
    if c = '-' then (parseDigitRun rest).map (fun p => (.num (-(p.1 : Int)), p.2))
    else (parseDigitRun (c :: rest)).map (fun p => (.num (p.1 : Int), p.2))

mutual

/-- Recursive-descent JSON value parser (model of `JSON.parse`), consuming
leading whitespace; `fuel` bounds recursion depth and is chosen large enough
for any input at the top-level entry point. -/
def parseValue : Nat → List Char → Option (Json × List Char)
  | 0, _ => none
  | fuel + 1, cs =>
    match skipWs cs with
    | [] => none
    | c :: rest =>
      if c = 'n' then
        match rest with
        | 'u' :: 'l' :: 'l' :: r => some (.null, r)
        | _ => none
      else if c = 't' then
        match rest with
        | 'r' :: 'u' :: 'e' :: r => some (.bool true, r)
        | _ => none
      else if c = 'f' then
        match rest with
        | 'a' :: 'l' :: 's' :: 'e' :: r => some (.bool false, r)
        | _ => none
      else if c = '"' then
        (parseStringBody rest).map (fun p => (.str ⟨p.1⟩, p.2))
      else if c = '-' || isDigitChar c then parseNumber (c :: rest)
      else if c = '[' then
        match skipWs rest with
        | ']' :: r => some (.arr [], r)
        | cs1 => (parseItems fuel cs1).map (fun p => (.arr p.1, p.2))
      else if c = '\x7b' then
        match skipWs rest with
        | '\x7d' :: r => some (.obj [], r)
        | cs1 => (parseMembers fuel cs1).map (fun p => (.obj p.1, p.2))
      else none

/-- Parse one or more comma-separated array elements up to `]`. -/
def parseItems : Nat → List Char → Option (List Json × List Char)
  | 0, _ => none
  | fuel + 1, cs =>
    match parseValue fuel cs with
    | none => none
    | some (v, r) =>
      match skipWs r with
      | ',' :: r1 => (parseItems fuel r1).map (fun p => (v :: p.1, p.2))
      | ']' :: r1 => some ([v], r1)
      | _ => none

/-- Parse one or more comma-separated object members up to the closing
brace. -/
def parseMembers : Nat → List Char → Option (List (String × Json) × List Char)
  | 0, _ => none
  | fuel + 1, cs =>
    match skipWs cs with
    | '"' :: r =>
      match parseStringBody r with
      | none => none
      | some (k, r1) =>
        match skipWs r1 with
        | ':' :: r2 =>
          match parseValue fuel r2 with
          | none => none
          | some (v, r3) =>
            match skipWs r3 with
            | ',' :: r4 => (parseMembers fuel r4).map (fun p => ((⟨k⟩, v) :: p.1, p.2))
            | '\x7d' :: r4 => some ([(⟨k⟩, v)], r4)
            | _ => none
        | _ => none
    | _ => none

end

/-- Model of `JSON.parse`: parse one value, demand only whitespace after it.
The fuel `2 * length + 2` dominates the recursion depth of any input. -/
def jsonParse (cs : List Char) : Option Json :=
  match parseValue (2 * cs.length + 2) cs with
  | some (v, rest) =>
    match skipWs rest with
    | [] => some v
    | _ => none
  | none => none

end OC

namespace OC

theorem toNat_ofNat_valid (n : Nat) (h : n < 55296) : (Char.ofNat n).toNat = n := by
  unfold Char.ofNat
  rw [dif_pos (Or.inl (by exact_mod_cast h))]
  rfl

/-- Source `AsyncRequestPayload`: the three fields serialized into the opaque
async request handle. -/
structure AsyncRequestPayload where
  session_id : String
  message_id : String
  submitted_at_ms : Int
deriving DecidableEq

/-- Source `CursorPayload`: the single pagination-cursor field. -/
structure CursorPayload where
  offset : Int
deriving DecidableEq

/-- The JSON object `JSON.stringify` receives in `encodeAsyncRequestId`. -/
def asyncPayloadJson (p : AsyncRequestPayload) : Json :=
  .obj [("session_id", .str p.session_id), ("message_id", .str p.message_id),
    ("submitted_at_ms", .num p.submitted_at_ms)]

/-- Source `encodeAsyncRequestId`:
`Buffer.from(JSON.stringify(payload)).toString("base64url")`. -/
def encodeAsyncRequestId (p : AsyncRequestPayload) : List Char :=
  base64urlEncode (utf8Encode (jserialize (asyncPayloadJson p)))

/-- The JSON object `JSON.stringify` receives in `encodeCursor`. -/
def cursorPayloadJson (p : CursorPayload) : Json :=
  .obj [("offset", .num p.offset)]

/-- Source `encodeCursor`:
`Buffer.from(JSON.stringify(payload)).toString("base64url")`. -/
def encodeCursor (p : CursorPayload) : List Char :=
  base64urlEncode (utf8Encode (jserialize (cursorPayloadJson p)))

/-- JavaScript property access on a `JSON.parse` result: objects yield the
value of the key (last occurrence wins, as duplicate keys collapse at parse
time); anything else yields `undefined` (`none`). -/
def jget (j : Json) (k : String) : Option Json :=
  match j with
  | .obj fs => ((fs.reverse).find? (fun f => f.1 == k)).map (fun f => f.2)
  | _ => none

/-- Source `decodeAsyncRequestId`: base64url-decode, UTF-8 decode,
`JSON.parse`, then demand string `session_id`, string `message_id` and
numeric `submitted_at_ms`; any failure yields the invalid-handle error. -/
def decodeAsyncRequestId (tok : List Char) : Except String AsyncRequestPayload :=
  match jsonParse (utf8Decode (base64urlDecode tok)) with
  | none => .error "Invalid async_request_id. Expected a base64url encoded async request id."
  | some j =>
    match jget j "session_id", jget j "message_id", jget j "submitted_at_ms" with
    | some (.str sid), some (.str mid), some (.num ts) => .ok ⟨sid, mid, ts⟩
    | _, _, _ =>
      .error "Invalid async_request_id. Expected a base64url encoded async request id."

/-- Model of JavaScript `Number(string)` on the subset this development
exercises: whitespace-trimmed empty text is 0, an optional sign followed by
decimal digits is that integer, and anything else is NaN (`none`).
(JavaScript additionally accepts fractional, exponential, hexadecimal and
infinite forms; no token in this development contains them, and fractional
results would be rejected by the `Number.isInteger` guard anyway.) -/
def jsStringToNumber (s : List Char) : Option Int :=
  let t := (s.dropWhile isJsonWs).reverse.dropWhile isJsonWs |>.reverse
  match t with
  | [] => some 0
  | '-' :: ds => if ds ≠ [] ∧ ds.all isDigitChar then some (-(digitsVal ds : Int)) else none
  | '+' :: ds => if ds ≠ [] ∧ ds.all isDigitChar then some (digitsVal ds : Int) else none
  | ds => if ds.all isDigitChar then some (digitsVal ds : Int) else none

/-- Model of JavaScript `Number(x)` as `decodeCursor` applies it to the
`offset` property: `undefined` (absent) is NaN, `null` is 0, booleans are
0/1, numbers are themselves, strings coerce via `jsStringToNumber`.
(Model restriction: arrays and plain objects, which JavaScript coerces via
their string form, are mapped to NaN; no claim in this development turns on
them.) -/
def jsToNumber : Option Json → Option Int
  | none => none
  | some .null => some 0
  | some (.bool b) => some (if b then 1 else 0)
  | some (.num n) => some n
  | some (.str s) => jsStringToNumber s.data
  | some (.arr _) => none
  | some (.obj _) => none

/-- Source `decodeCursor`: an absent or empty cursor is offset 0; otherwise
base64url-decode, UTF-8 decode, `JSON.parse`, coerce the `offset` property
with `Number(...)`, and demand a non-negative integer (in this integral
model `Number.isInteger` holds of every non-NaN result); any failure yields
the invalid-cursor error. -/
def decodeCursor (cursor : Option (List Char)) : Except String CursorPayload :=
  match cursor with
  | none => .ok ⟨0⟩
  | some cs =>
    if cs = [] then .ok ⟨0⟩
    else
      match jsonParse (utf8Decode (base64urlDecode cs)) with
      | none => .error "Invalid cursor. Expected a base64url encoded cursor."
      | some j =>
        match jsToNumber (jget j "offset") with
        | none => .error "Invalid cursor. Expected a base64url encoded cursor."
        | some off =>
          if off < 0 then .error "Invalid cursor. Expected a base64url encoded cursor."
          else .ok ⟨off⟩

end OC

namespace OC

theorem hexVal_hexDigitChar : ∀ d : Nat, d < 16 → hexVal (hexDigitChar d) = some d := by
  decide

theorem psbF_escape : ∀ (s : List Char) (f : Nat) (rest : List Char),
    (escapeBody s ++ '"' :: rest).length ≤ f →
    parseStringBodyF f (escapeBody s ++ '"' :: rest) = some (s, rest)
  | [], f, rest, hf => by
    rw [show escapeBody [] = [] from rfl, List.nil_append] at hf ⊢
    simp only [List.length_cons] at hf
    obtain ⟨f0, rfl⟩ : ∃ f0, f = f0 + 1 := ⟨f - 1, by omega⟩
    rfl
  | c :: s, f, rest, hf => by
    rw [show escapeBody (c :: s) = escapeChar c ++ escapeBody s from rfl,
      List.append_assoc] at hf ⊢
    by_cases h1 : c = '"'
    · subst h1
      rw [show escapeChar '"' = ['\\', '"'] from rfl] at hf ⊢
      simp only [List.cons_append, List.nil_append, List.length_cons,
        List.length_append] at hf ⊢
      obtain ⟨f0, rfl⟩ : ∃ f0, f = f0 + 1 := ⟨f - 1, by omega⟩
      have ih := psbF_escape s f0 rest (by
        simp only [List.length_append, List.length_cons]
        omega)
      show (parseStringBodyF f0 (escapeBody s ++ '"' :: rest)).map
          (fun p => ('"' :: p.1, p.2)) = _
      rw [ih]
      rfl
    · by_cases h2 : c = '\\'
      · subst h2
        rw [show escapeChar '\\' = ['\\', '\\'] from rfl] at hf ⊢
        simp only [List.cons_append, List.nil_append, List.length_cons,
          List.length_append] at hf ⊢
        obtain ⟨f0, rfl⟩ : ∃ f0, f = f0 + 1 := ⟨f - 1, by omega⟩
        have ih := psbF_escape s f0 rest (by
          simp only [List.length_append, List.length_cons]
          omega)
        show (parseStringBodyF f0 (escapeBody s ++ '"' :: rest)).map
            (fun p => ('\\' :: p.1, p.2)) = _
        rw [ih]
        rfl
      · by_cases h3 : c = '\x08'
        · subst h3
          rw [show escapeChar '\x08' = ['\\', 'b'] from rfl] at hf ⊢
          simp only [List.cons_append, List.nil_append, List.length_cons,
            List.length_append] at hf ⊢
          obtain ⟨f0, rfl⟩ : ∃ f0, f = f0 + 1 := ⟨f - 1, by omega⟩
          have ih := psbF_escape s f0 rest (by
            simp only [List.length_append, List.length_cons]
            omega)
          show (parseStringBodyF f0 (escapeBody s ++ '"' :: rest)).map
              (fun p => ('\x08' :: p.1, p.2)) = _
          rw [ih]
          rfl
        · by_cases h4 : c = '\x09'
          · subst h4
            rw [show escapeChar '\x09' = ['\\', 't'] from rfl] at hf ⊢
            simp only [List.cons_append, List.nil_append, List.length_cons,
              List.length_append] at hf ⊢
            obtain ⟨f0, rfl⟩ : ∃ f0, f = f0 + 1 := ⟨f - 1, by omega⟩
            have ih := psbF_escape s f0 rest (by
              simp only [List.length_append, List.length_cons]
              omega)
            show (parseStringBodyF f0 (escapeBody s ++ '"' :: rest)).map
                (fun p => ('\x09' :: p.1, p.2)) = _
            rw [ih]
            rfl
          · by_cases h5 : c = '\x0a'
            · subst h5
              rw [show escapeChar '\x0a' = ['\\', 'n'] from rfl] at hf ⊢
              simp only [List.cons_append, List.nil_append, List.length_cons,
                List.length_append] at hf ⊢
              obtain ⟨f0, rfl⟩ : ∃ f0, f = f0 + 1 := ⟨f - 1, by omega⟩
              have ih := psbF_escape s f0 rest (by
                simp only [List.length_append, List.length_cons]
                omega)
              show (parseStringBodyF f0 (escapeBody s ++ '"' :: rest)).map
                  (fun p => ('\x0a' :: p.1, p.2)) = _
              rw [ih]
              rfl
            · by_cases h6 : c = '\x0c'
              · subst h6
                rw [show escapeChar '\x0c' = ['\\', 'f'] from rfl] at hf ⊢
                simp only [List.cons_append, List.nil_append, List.length_cons,
                  List.length_append] at hf ⊢
                obtain ⟨f0, rfl⟩ : ∃ f0, f = f0 + 1 := ⟨f - 1, by omega⟩
                have ih := psbF_escape s f0 rest (by
                  simp only [List.length_append, List.length_cons]
                  omega)
                show (parseStringBodyF f0 (escapeBody s ++ '"' :: rest)).map
                    (fun p => ('\x0c' :: p.1, p.2)) = _
                rw [ih]
                rfl
              · by_cases h7 : c = '\x0d'
                · subst h7
                  rw [show escapeChar '\x0d' = ['\\', 'r'] from rfl] at hf ⊢
                  simp only [List.cons_append, List.nil_append, List.length_cons,
                    List.length_append] at hf ⊢
                  obtain ⟨f0, rfl⟩ : ∃ f0, f = f0 + 1 := ⟨f - 1, by omega⟩
                  have ih := psbF_escape s f0 rest (by
                    simp only [List.length_append, List.length_cons]
                    omega)
                  show (parseStringBodyF f0 (escapeBody s ++ '"' :: rest)).map
                      (fun p => ('\x0d' :: p.1, p.2)) = _
                  rw [ih]
                  rfl
                · by_cases h8 : c.toNat < 0x20
                  · have hesc : escapeChar c = ['\\', 'u', '0', '0',
                        hexDigitChar (c.toNat / 16), hexDigitChar (c.toNat % 16)] := by
                      unfold escapeChar
                      rw [if_neg h1, if_neg h2, if_neg h3, if_neg h4, if_neg h5, if_neg h6,
                        if_neg h7, if_pos h8]
                    rw [hesc] at hf ⊢
                    simp only [List.cons_append, List.nil_append, List.length_cons,
                      List.length_append] at hf ⊢
                    obtain ⟨f0, rfl⟩ : ∃ f0, f = f0 + 1 := ⟨f - 1, by omega⟩
                    have ih := psbF_escape s f0 rest (by
                      simp only [List.length_append, List.length_cons]
                      omega)
                    show (match hexQuad '0' '0' (hexDigitChar (c.toNat / 16))
                        (hexDigitChar (c.toNat % 16)) with
                      | some n =>
                        if n < 0xD800 || 0xDFFF < n then
                          (parseStringBodyF f0 (escapeBody s ++ '"' :: rest)).map
                            (fun (p : List Char × List Char) => (Char.ofNat n :: p.1, p.2))
                        else none
                      | none => none) = _
                    have hq : hexQuad '0' '0' (hexDigitChar (c.toNat / 16))
                        (hexDigitChar (c.toNat % 16)) = some c.toNat := by
                      unfold hexQuad
                      rw [show hexVal '0' = some 0 from rfl,
                        hexVal_hexDigitChar _ (by omega), hexVal_hexDigitChar _ (by omega)]
                      simp only [Option.some.injEq]
                      omega
                    rw [hq]
                    show (if (decide (c.toNat < 55296) || decide (57343 < c.toNat)) = true then
                        (parseStringBodyF f0 (escapeBody s ++ '"' :: rest)).map
                          (fun p => (Char.ofNat c.toNat :: p.1, p.2))
                      else none) = _
                    rw [if_pos (by
                        simp only [Bool.or_eq_true, decide_eq_true_eq]
                        omega),
                      ih, Char.ofNat_toNat]
                    rfl
                  · have hesc : escapeChar c = [c] := by
                      unfold escapeChar
                      rw [if_neg h1, if_neg h2, if_neg h3, if_neg h4, if_neg h5, if_neg h6,
                        if_neg h7, if_neg h8]
                    rw [hesc] at hf ⊢
                    simp only [List.cons_append, List.nil_append, List.length_cons,
                      List.length_append] at hf ⊢
                    obtain ⟨f0, rfl⟩ : ∃ f0, f = f0 + 1 := ⟨f - 1, by omega⟩
                    have ih := psbF_escape s f0 rest (by
                      simp only [List.length_append, List.length_cons]
                      omega)
                    rw [parseStringBodyF.eq_def]
                    simp only []
                    rw [if_neg h1, if_neg h2, if_neg h8, ih]
                    rfl

theorem parseStringBody_escape (s rest : List Char) :
    parseStringBody (escapeBody s ++ '"' :: rest) = some (s, rest) :=
  psbF_escape s (escapeBody s ++ '"' :: rest).length rest le_rfl

end OC

namespace OC

/-- The character of a decimal digit. -/
def digitChar (d : Nat) : Char := Char.ofNat (48 + d)

theorem natCharsGo_eq : ∀ (f n : Nat) (acc : List Char), n ≤ f →
    natCharsGo f n acc = (Nat.digits 10 n).reverse.map digitChar ++ acc
  | 0, n, acc, h => by
    have : n = 0 := by omega
    subst this
    simp [natCharsGo]
  | f + 1, n, acc, h => by
    rw [natCharsGo]
    by_cases hn : n = 0
    · subst hn
      simp
    · rw [if_neg hn]
      have hd : Nat.digits 10 n = n % 10 :: Nat.digits 10 (n / 10) :=
        Nat.digits_def' (by norm_num) (by omega)
      rw [natCharsGo_eq f (n / 10) (Char.ofNat (48 + n % 10) :: acc) (by omega), hd]
      simp [digitChar]

theorem natChars_eq (m : Nat) :
    natChars m = if m = 0 then ['0'] else (Nat.digits 10 m).reverse.map digitChar := by
  unfold natChars
  by_cases h : m = 0
  · simp [h]
  · rw [if_neg h, if_neg h, natCharsGo_eq m m [] le_rfl, List.append_nil]

theorem isDigitChar_digitChar (d : Nat) (h : d < 10) : isDigitChar (digitChar d) = true := by
  unfold isDigitChar digitChar
  rw [toNat_ofNat_valid _ (by omega)]
  simp only [Bool.and_eq_true, decide_eq_true_eq]
  omega

theorem natChars_digits (m : Nat) : ∀ c ∈ natChars m, isDigitChar c = true := by
  rw [natChars_eq]
  by_cases h : m = 0
  · rw [if_pos h]
    intro c hc
    simp only [List.mem_singleton] at hc
    subst hc
    decide
  · rw [if_neg h]
    intro c hc
    simp only [List.mem_map, List.mem_reverse] at hc
    obtain ⟨d, hd, rfl⟩ := hc
    exact isDigitChar_digitChar d (Nat.digits_lt_base (by norm_num) hd)

theorem spanDigits_append (ds rest : List Char) (hds : ∀ c ∈ ds, isDigitChar c = true)
    (hrest : ∀ c, rest.head? = some c → isDigitChar c = false) :
    spanDigits (ds ++ rest) = (ds, rest) := by
  induction ds with
  | nil =>
    simp only [List.nil_append]
    cases rest with
    | nil => rfl
    | cons c r =>
      rw [spanDigits, if_neg]
      rw [hrest c rfl]
      simp
  | cons c ds ih =>
    rw [List.cons_append, spanDigits, if_pos (hds c (by simp)),
      ih (fun x hx => hds x (by simp [hx]))]

theorem digitsVal_rev (L : List Nat) (a : Nat) (hL : ∀ d ∈ L, d < 10) :
    (L.reverse.map digitChar).foldl (fun acc c => acc * 10 + (c.toNat - 48)) a
      = a * 10 ^ L.length + Nat.ofDigits 10 L := by
  induction L generalizing a with
  | nil => simp
  | cons d L ih =>
    have hd : d < 10 := hL d (by simp)
    rw [List.reverse_cons, List.map_append, List.foldl_append,
      ih a (fun x hx => hL x (by simp [hx]))]
    simp only [List.map_cons, List.map_nil, List.foldl_cons, List.foldl_nil]
    rw [show (digitChar d).toNat = 48 + d from toNat_ofNat_valid _ (by omega)]
    rw [Nat.ofDigits_cons]
    have h48 : 48 + d - 48 = d := by omega
    rw [h48, List.length_cons, pow_succ]
    ring

theorem digitsVal_natChars (m : Nat) : digitsVal (natChars m) = m := by
  rw [natChars_eq]
  by_cases h : m = 0
  · rw [if_pos h, h]
    rfl
  · rw [if_neg h]
    unfold digitsVal
    rw [digitsVal_rev _ 0 (fun d hd => Nat.digits_lt_base (by norm_num) hd)]
    rw [Nat.ofDigits_digits]
    omega

theorem natChars_ne_nil (m : Nat) : natChars m ≠ [] := by
  rw [natChars_eq]
  by_cases h : m = 0
  · simp [h]
  · rw [if_neg h]
    simp only [ne_eq, List.map_eq_nil_iff, List.reverse_eq_nil_iff]
    exact Nat.digits_ne_nil_iff_ne_zero.2 h

theorem natChars_no_leading_zero (m : Nat) (hm : m ≠ 0) (d : Char) (ds : List Char)
    (h : natChars m = d :: ds) : ¬(d = '0' ∧ ds ≠ []) := by
  rintro ⟨rfl, hne⟩
  rw [natChars_eq, if_neg hm] at h
  have hLne : Nat.digits 10 m ≠ [] := Nat.digits_ne_nil_iff_ne_zero.2 hm
  have hlast : (Nat.digits 10 m).getLast hLne ≠ 0 := Nat.getLast_digit_ne_zero 10 hm
  have hhead : ((Nat.digits 10 m).reverse.map digitChar).head?
      = some (digitChar ((Nat.digits 10 m).getLast hLne)) := by
    rw [List.head?_map, List.head?_reverse, List.getLast?_eq_getLast _ hLne]
    rfl
  rw [h] at hhead
  simp only [List.head?_cons, Option.some.injEq] at hhead
  have h48 : ('0' : Char).toNat = (digitChar ((Nat.digits 10 m).getLast hLne)).toNat := by
    rw [hhead]
  unfold digitChar at h48
  rw [show ('0' : Char).toNat = 48 from rfl, toNat_ofNat_valid _ (by
    have := Nat.digits_lt_base (by norm_num) ((Nat.digits 10 m).getLast_mem hLne)
    omega)] at h48
  omega

theorem parseDigitRun_natChars (m : Nat) (rest : List Char)
    (hrest : ∀ c, rest.head? = some c → isDigitChar c = false) :
    parseDigitRun (natChars m ++ rest) = some (m, rest) := by
  obtain ⟨d, ds, hds⟩ : ∃ d ds, natChars m = d :: ds := by
    cases h : natChars m with
    | nil => exact absurd h (natChars_ne_nil m)
    | cons d ds => exact ⟨d, ds, rfl⟩
  unfold parseDigitRun
  rw [show natChars m ++ rest = (d :: ds) ++ rest by rw [hds],
    spanDigits_append _ _ (fun c hc => natChars_digits m c (by rw [hds]; exact hc)) hrest]
  show (if d = '0' ∧ ds ≠ [] then none else some (digitsVal (d :: ds), rest)) = some (m, rest)
  by_cases hm : m = 0
  · have : d = '0' ∧ ds = [] := by
      have := hds
      rw [natChars_eq, if_pos hm] at this
      exact ⟨(List.cons.injEq _ _ _ _ ▸ this).1.symm, ((List.cons.injEq _ _ _ _ ▸ this).2).symm⟩
    rw [if_neg (by simp [this.1, this.2])]
    rw [← hds, digitsVal_natChars]
  · rw [if_neg (natChars_no_leading_zero m hm d ds hds), ← hds, digitsVal_natChars]

theorem parseNumber_intChars (n : Int) (rest : List Char)
    (hrest : ∀ c, rest.head? = some c → isDigitChar c = false) :
    parseNumber (intChars n ++ rest) = some (.num n, rest) := by
  unfold intChars
  by_cases hn : n < 0
  · rw [if_pos hn, List.cons_append, parseNumber, if_pos rfl,
      parseDigitRun_natChars _ _ hrest]
    simp only [Option.map_some', Option.some.injEq, Prod.mk.injEq, Json.num.injEq]
    exact ⟨by omega, trivial⟩
  · rw [if_neg hn]
    obtain ⟨d, ds, hds⟩ : ∃ d ds, natChars n.natAbs = d :: ds := by
      cases h : natChars n.natAbs with
      | nil => exact absurd h (natChars_ne_nil _)
      | cons d ds => exact ⟨d, ds, rfl⟩
    have hd : isDigitChar d = true := natChars_digits _ d (by rw [hds]; simp)
    rw [hds, List.cons_append, parseNumber, if_neg (by
      intro hcontra
      rw [hcontra] at hd
      exact absurd hd (by decide))]
    rw [← List.cons_append, ← hds, parseDigitRun_natChars _ _ hrest]
    simp only [Option.map_some', Option.some.injEq, Prod.mk.injEq, Json.num.injEq]
    exact ⟨by omega, trivial⟩

end OC

namespace OC

theorem skipWs_cons (c : Char) (rest : List Char) (h : isJsonWs c = false) :
    skipWs (c :: rest) = c :: rest := by
  rw [skipWs, h]
  simp

theorem str_eta (s : String) : (⟨s.data⟩ : String) = s := rfl

theorem parseValue_str (f : Nat) (s : String) (rest : List Char) :
    parseValue (f + 1) (jserialize (.str s) ++ rest) = some (.str s, rest) := by
  show parseValue (f + 1) (('"' :: (escapeBody s.data ++ ['"'])) ++ rest) = _
  rw [List.cons_append, List.append_assoc,
    show (['"'] : List Char) ++ rest = '"' :: rest from rfl, parseValue,
    skipWs_cons _ _ (by decide)]
  simp only [reduceIte]
  rw [if_neg (show ¬('"' : Char) = 'n' by decide), if_neg (show ¬('"' : Char) = 't' by decide),
    if_neg (show ¬('"' : Char) = 'f' by decide), parseStringBody_escape]
  simp only [Option.map_some', str_eta]

theorem digit_head_cases (c : Char) (h : isDigitChar c = true) :
    c ≠ 'n' ∧ c ≠ 't' ∧ c ≠ 'f' ∧ c ≠ '"' ∧ (decide (c = '-') || isDigitChar c) = true
      ∧ isJsonWs c = false := by
  unfold isDigitChar at h
  simp only [Bool.and_eq_true, decide_eq_true_eq] at h
  refine ⟨?_, ?_, ?_, ?_, by simp [h, isDigitChar], ?_⟩
  · intro hc
    rw [hc] at h
    simp at h
  · intro hc
    rw [hc] at h
    simp at h
  · intro hc
    rw [hc] at h
    simp at h
  · intro hc
    rw [hc] at h
    simp at h
  · unfold isJsonWs
    simp only [Bool.or_eq_false_iff, decide_eq_false_iff_not]
    refine ⟨⟨⟨?_, ?_⟩, ?_⟩, ?_⟩ <;> (intro hc; rw [hc] at h; simp at h)

theorem parseValue_num (f : Nat) (n : Int) (rest : List Char)
    (hrest : ∀ c, rest.head? = some c → isDigitChar c = false) :
    parseValue (f + 1) (jserialize (.num n) ++ rest) = some (.num n, rest) := by
  show parseValue (f + 1) (intChars n ++ rest) = _
  by_cases hn : n < 0
  · rw [show intChars n ++ rest = '-' :: (natChars n.natAbs ++ rest) by
      unfold intChars
      rw [if_pos hn, List.cons_append]]
    rw [parseValue, skipWs_cons _ _ (by decide)]
    simp only [reduceIte]
    rw [if_neg (show ¬('-' : Char) = 'n' by decide), if_neg (show ¬('-' : Char) = 't' by decide),
      if_neg (show ¬('-' : Char) = 'f' by decide), if_neg (show ¬('-' : Char) = '"' by decide)]
    rw [if_pos (show (decide True || isDigitChar '-') = true from by decide)]
    rw [show ('-' : Char) :: (natChars n.natAbs ++ rest) = intChars n ++ rest by
      unfold intChars
      rw [if_pos hn, List.cons_append]]
    exact parseNumber_intChars n rest hrest
  · have hichars : intChars n = natChars n.natAbs := by
      unfold intChars
      rw [if_neg hn]
    obtain ⟨d, ds, hds⟩ : ∃ d ds, natChars n.natAbs = d :: ds := by
      cases h : natChars n.natAbs with
      | nil => exact absurd h (natChars_ne_nil _)
      | cons d ds => exact ⟨d, ds, rfl⟩
    have hd : isDigitChar d = true := natChars_digits _ d (by rw [hds]; simp)
    obtain ⟨hn1, hn2, hn3, hn4, hn5, hn6⟩ := digit_head_cases d hd
    rw [hichars, hds, List.cons_append, parseValue, skipWs_cons _ _ hn6]
    simp only [reduceIte]
    rw [if_neg hn1, if_neg hn2, if_neg hn3, if_neg hn4, if_pos hn5]
    rw [← List.cons_append, ← hds, ← hichars]
    show parseNumber (intChars n ++ rest) = _
    exact parseNumber_intChars n rest hrest

end OC

namespace OC

/-- A scalar JSON value: a string or a number. -/
def ScalarJson (v : Json) : Prop := (∃ s, v = Json.str s) ∨ (∃ n, v = Json.num n)

theorem parseValue_scalar (g : Nat) (v : Json) (hv : ScalarJson v) (rest : List Char)
    (hrest : ∀ c, rest.head? = some c → isDigitChar c = false) :
    parseValue (g + 1) (jserialize v ++ rest) = some (v, rest) := by
  rcases hv with ⟨s, rfl⟩ | ⟨n, rfl⟩
  · exact parseValue_str g s rest
  · exact parseValue_num g n rest hrest

theorem parseMembers_serialized :
    ∀ (fs : List (String × Json)) (fuel : Nat) (rest : List Char),
      fs ≠ [] →
      (∀ kv ∈ fs, ScalarJson kv.2) →
      2 * fs.length ≤ fuel →
      parseMembers fuel (jserializeFields fs ++ '\x7d' :: rest) = some (fs, rest)
  | [], _, _, hne, _, _ => absurd rfl hne
  | [(k, v)], fuel, rest, _, hsc, hfuel => by
    simp only [List.length_cons, List.length_nil] at hfuel
    obtain ⟨g, rfl⟩ : ∃ g, fuel = g + 1 := ⟨fuel - 1, by omega⟩
    obtain ⟨g1, rfl⟩ : ∃ g1, g = g1 + 1 := ⟨g - 1, by omega⟩
    have hshape : jserializeFields [(k, v)] ++ '\x7d' :: rest
        = '"' :: (escapeBody k.data ++ '"' :: ':' :: (jserialize v ++ '\x7d' :: rest)) := by
      show ('"' :: (escapeBody k.data ++ '"' :: ':' :: jserialize v)) ++ '\x7d' :: rest = _
      simp only [List.cons_append, List.append_assoc]
    rw [hshape, parseMembers, skipWs_cons _ _ (by decide)]
    simp only []
    rw [parseStringBody_escape]
    simp only []
    rw [skipWs_cons _ _ (by decide)]
    simp only []
    rw [parseValue_scalar g1 v (hsc (k, v) (by simp)) _ (by
      intro c hc
      simp only [List.head?_cons, Option.some.injEq] at hc
      subst hc
      decide)]
    simp only []
    rw [skipWs_cons _ _ (by decide)]
    simp only [str_eta]
  | (k, v) :: f2 :: fs', fuel, rest, _, hsc, hfuel => by
    simp only [List.length_cons] at hfuel
    obtain ⟨g, rfl⟩ : ∃ g, fuel = g + 1 := ⟨fuel - 1, by omega⟩
    obtain ⟨g1, rfl⟩ : ∃ g1, g = g1 + 1 := ⟨g - 1, by omega⟩
    have ih := parseMembers_serialized (f2 :: fs') (g1 + 1) rest (by simp)
      (fun kv hkv => hsc kv (by simp [hkv]))
      (by simp only [List.length_cons]; omega)
    have hshape : jserializeFields ((k, v) :: f2 :: fs') ++ '\x7d' :: rest
        = '"' :: (escapeBody k.data ++ '"' :: ':' ::
            (jserialize v ++ ',' :: (jserializeFields (f2 :: fs') ++ '\x7d' :: rest))) := by
      show (('"' :: (escapeBody k.data ++ '"' :: ':' :: jserialize v))
          ++ ',' :: jserializeFields (f2 :: fs')) ++ '\x7d' :: rest = _
      simp only [List.cons_append, List.append_assoc]
    rw [hshape, parseMembers, skipWs_cons _ _ (by decide)]
    simp only []
    rw [parseStringBody_escape]
    simp only []
    rw [skipWs_cons _ _ (by decide)]
    simp only []
    rw [parseValue_scalar g1 v (hsc (k, v) (by simp)) _ (by
      intro c hc
      simp only [List.head?_cons, Option.some.injEq] at hc
      subst hc
      decide)]
    simp only []
    rw [skipWs_cons _ _ (by decide)]
    simp only []
    rw [ih]
    simp only [Option.map_some', str_eta]

end OC

namespace OC

theorem jserializeFields_length :
    ∀ fs : List (String × Json), fs.length ≤ (jserializeFields fs).length
  | [] => by simp [jserializeFields]
  | [(k, v)] => by
    rw [jserializeFields]
    simp
  | (k, v) :: f2 :: fs' => by
    have ih := jserializeFields_length (f2 :: fs')
    rw [jserializeFields]
    simp only [List.length_cons, List.cons_append, List.length_append] at ih ⊢
    omega

theorem jserializeFields_head :
    ∀ fs : List (String × Json), fs ≠ [] → ∃ tl, jserializeFields fs = '"' :: tl
  | [], hne => absurd rfl hne
  | [(k, v)], _ => ⟨_, rfl⟩
  | (k, v) :: f2 :: fs', _ => ⟨_, rfl⟩

theorem utf8EncodeChar_lt (c : Char) : ∀ b ∈ utf8EncodeChar c, b < 256 := by
  have hv := char_valid c
  unfold utf8EncodeChar
  by_cases h1 : c.toNat < 0x80
  · rw [if_pos h1]
    intro b hb
    simp only [List.mem_singleton] at hb
    omega
  · rw [if_neg h1]
    by_cases h2 : c.toNat < 0x800
    · rw [if_pos h2]
      intro b hb
      simp only [List.mem_cons, List.not_mem_nil, or_false] at hb
      rcases hb with rfl | rfl <;> omega
    · rw [if_neg h2]
      by_cases h3 : c.toNat < 0x10000
      · rw [if_pos h3]
        intro b hb
        simp only [List.mem_cons, List.not_mem_nil, or_false] at hb
        rcases hb with rfl | rfl | rfl <;> omega
      · rw [if_neg h3]
        intro b hb
        simp only [List.mem_cons, List.not_mem_nil, or_false] at hb
        rcases hb with rfl | rfl | rfl | rfl <;> omega

theorem utf8Encode_lt (s : List Char) : ∀ b ∈ utf8Encode s, b < 256 := by
  intro b hb
  unfold utf8Encode at hb
  simp only [List.mem_flatMap] at hb
  obtain ⟨c, _, hbc⟩ := hb
  exact utf8EncodeChar_lt c b hbc

theorem parseValue_obj_scalar (fs : List (String × Json)) (g : Nat) (hne : fs ≠ [])
    (hsc : ∀ kv ∈ fs, ScalarJson kv.2) (hg : 2 * fs.length ≤ g) (rest : List Char) :
    parseValue (g + 1) (jserialize (.obj fs) ++ rest) = some (.obj fs, rest) := by
  obtain ⟨tl, htl⟩ := jserializeFields_head fs hne
  rw [show jserialize (.obj fs) ++ rest
    = '\x7b' :: (jserializeFields fs ++ '\x7d' :: rest) by
      show ('\x7b' :: (jserializeFields fs ++ ['\x7d'])) ++ rest = _
      simp only [List.cons_append, List.append_assoc, List.singleton_append, List.nil_append]]
  rw [parseValue, skipWs_cons _ _ (by decide)]
  simp only []
  rw [if_neg (show ¬('\x7b' : Char) = 'n' by decide),
    if_neg (show ¬('\x7b' : Char) = 't' by decide),
    if_neg (show ¬('\x7b' : Char) = 'f' by decide),
    if_neg (show ¬('\x7b' : Char) = '"' by decide),
    if_neg (show ¬((decide (('\x7b' : Char) = '-') || isDigitChar '\x7b') = true) by decide),
    if_neg (show ¬('\x7b' : Char) = '[' by decide)]
  rw [htl, List.cons_append, skipWs_cons _ _ (by decide)]
  show Option.map (fun (p : List (String × Json) × List Char) => (Json.obj p.1, p.2))
      (parseMembers g ('"' :: (tl ++ '\x7d' :: rest))) = _
  rw [← List.cons_append, ← htl, parseMembers_serialized fs g rest hne hsc hg]
  simp only [Option.map_some']

theorem jsonParse_obj_scalar (fs : List (String × Json)) (hne : fs ≠ [])
    (hsc : ∀ kv ∈ fs, ScalarJson kv.2) :
    jsonParse (jserialize (.obj fs)) = some (.obj fs) := by
  have hflen := jserializeFields_length fs
  have hlen : (jserialize (.obj fs)).length = (jserializeFields fs).length + 2 := by
    rw [show jserialize (.obj fs) = '\x7b' :: (jserializeFields fs ++ ['\x7d']) from rfl]
    simp
  obtain ⟨g, hg⟩ : ∃ g, 2 * (jserialize (.obj fs)).length + 2 = g + 1
      ∧ 2 * fs.length ≤ g := by
    refine ⟨2 * (jserialize (.obj fs)).length + 1, rfl, ?_⟩
    omega
  unfold jsonParse
  rw [hg.1]
  have := parseValue_obj_scalar fs g hne hsc hg.2 []
  rw [List.append_nil] at this
  rw [this]
  rfl

end OC

namespace OC

theorem base64urlEncode_ne_nil (b : Nat) (bs : List Nat) :
    base64urlEncode (b :: bs) ≠ [] := by
  match bs with
  | [] => simp [base64urlEncode]
  | [b1] => simp [base64urlEncode]
  | b1 :: b2 :: rest => simp [base64urlEncode]

theorem pipeline_roundtrip (j : Json) :
    jsonParse (utf8Decode (base64urlDecode (base64urlEncode (utf8Encode (jserialize j)))))
      = jsonParse (jserialize j) := by
  rw [base64url_roundtrip _ (utf8Encode_lt _), utf8_roundtrip]

theorem decode_encode_async (p : AsyncRequestPayload) :
    decodeAsyncRequestId (encodeAsyncRequestId p) = .ok p := by
  have hparse : jsonParse (jserialize (asyncPayloadJson p)) = some (asyncPayloadJson p) := by
    rw [show asyncPayloadJson p = Json.obj [("session_id", Json.str p.session_id),
      ("message_id", Json.str p.message_id), ("submitted_at_ms", Json.num p.submitted_at_ms)]
      from rfl]
    refine jsonParse_obj_scalar _ (by simp) ?_
    intro kv hkv
    simp only [List.mem_cons, List.not_mem_nil, or_false] at hkv
    rcases hkv with rfl | rfl | rfl
    · exact Or.inl ⟨_, rfl⟩
    · exact Or.inl ⟨_, rfl⟩
    · exact Or.inr ⟨_, rfl⟩
  unfold decodeAsyncRequestId encodeAsyncRequestId
  rw [pipeline_roundtrip, hparse]
  show (match jget (asyncPayloadJson p) "session_id", jget (asyncPayloadJson p) "message_id",
      jget (asyncPayloadJson p) "submitted_at_ms" with
    | some (.str sid), some (.str mid), some (.num ts) =>
        Except.ok (⟨sid, mid, ts⟩ : AsyncRequestPayload)
    | _, _, _ => Except.error
        "Invalid async_request_id. Expected a base64url encoded async request id.") = .ok p
  rw [show jget (asyncPayloadJson p) "session_id" = some (.str p.session_id) from rfl,
    show jget (asyncPayloadJson p) "message_id" = some (.str p.message_id) from rfl,
    show jget (asyncPayloadJson p) "submitted_at_ms" = some (.num p.submitted_at_ms) from rfl]

theorem decode_encode_cursor (p : CursorPayload) (hp : 0 ≤ p.offset) :
    decodeCursor (some (encodeCursor p)) = .ok p := by
  have hparse : jsonParse (jserialize (cursorPayloadJson p)) = some (cursorPayloadJson p) := by
    rw [show cursorPayloadJson p = Json.obj [("offset", Json.num p.offset)] from rfl]
    refine jsonParse_obj_scalar _ (by simp) ?_
    intro kv hkv
    simp only [List.mem_singleton] at hkv
    subst hkv
    exact Or.inr ⟨_, rfl⟩
  have hne : encodeCursor p ≠ [] := by
    unfold encodeCursor cursorPayloadJson
    rw [show jserialize (.obj [("offset", .num p.offset)])
      = '\x7b' :: (jserializeFields [("offset", .num p.offset)] ++ ['\x7d']) from rfl]
    rw [show utf8Encode ('\x7b' :: (jserializeFields [("offset", Json.num p.offset)] ++ ['\x7d']))
      = 123 :: utf8Encode (jserializeFields [("offset", Json.num p.offset)] ++ ['\x7d']) from rfl]
    exact base64urlEncode_ne_nil _ _
  unfold decodeCursor
  show (if encodeCursor p = [] then Except.ok (⟨0⟩ : CursorPayload)
    else
      match jsonParse (utf8Decode (base64urlDecode (encodeCursor p))) with
      | none => Except.error "Invalid cursor. Expected a base64url encoded cursor."
      | some j =>
        match jsToNumber (jget j "offset") with
        | none => Except.error "Invalid cursor. Expected a base64url encoded cursor."
        | some off =>
          if off < 0 then Except.error "Invalid cursor. Expected a base64url encoded cursor."
          else Except.ok (⟨off⟩ : CursorPayload)) = .ok p
  rw [if_neg hne]
  unfold encodeCursor
  rw [show base64urlDecode (base64urlEncode (utf8Encode (jserialize (cursorPayloadJson p))))
      = utf8Encode (jserialize (cursorPayloadJson p)) from
    base64url_roundtrip _ (utf8Encode_lt _), utf8_roundtrip, hparse]
  show (match jsToNumber (jget (cursorPayloadJson p) "offset") with
    | none => Except.error "Invalid cursor. Expected a base64url encoded cursor."
    | some off =>
      if off < 0 then Except.error "Invalid cursor. Expected a base64url encoded cursor."
      else Except.ok (⟨off⟩ : CursorPayload)) = .ok p
  rw [show jget (cursorPayloadJson p) "offset" = some (.num p.offset) from rfl]
  show (if p.offset < 0 then
      Except.error "Invalid cursor. Expected a base64url encoded cursor."
    else Except.ok (⟨p.offset⟩ : CursorPayload)) = .ok p
  rw [if_neg (by omega)]

end OC

namespace OC

/-- Source default `fields` list (`DEFAULT_MESSAGE_FIELDS`). -/
def DEFAULT_MESSAGE_FIELDS : List String :=
  ["info.id", "info.role", "info.time", "parts.type", "parts.text"]

/-- Keep the first occurrence of each element, as iterating a JS `Set`
built by repeated insertion does. -/
def dedupFirst (xs : List String) : List String :=
  xs.foldl (fun acc x => if acc.contains x then acc else acc ++ [x]) []

/-- JS `String.prototype.trim` whitespace test for the characters that occur
in the claims (space, tab, newline, carriage return). -/
def isJsTrimWs (c : Char) : Bool :=
  c == ' ' || c == '\t' || c == '\n' || c == '\r'

/-- JS `value.trim()`: strip leading and trailing whitespace. -/
def jsTrim (s : String) : String :=
  ⟨((s.data.dropWhile isJsTrimWs).reverse.dropWhile isJsTrimWs).reverse⟩

/-- Helper for `splitDot`: accumulate the current component (reversed). -/
def splitDotGo : List Char → List Char → List String
  | [], acc => [⟨acc.reverse⟩]
  | c :: cs, acc =>
    if c == '.' then ⟨acc.reverse⟩ :: splitDotGo cs []
    else splitDotGo cs (c :: acc)

/-- JS `field.split(".")`: split on every dot, keeping empty components. -/
def splitDot (s : String) : List String :=
  splitDotGo s.data []

/-- Source `parseRequestedFields` on an array argument (`undefined` for an
absent one): trim entries, drop empties, fall back to the defaults when
nothing remains, collapse to `["*"]` when a `*` is present, else dedupe.
(The source also accepts a comma-separated string; no claim exercises it.) -/
def parseRequestedFields (fields : Option (List String)) : List String :=
  match fields with
  | none => DEFAULT_MESSAGE_FIELDS
  | some values =>
    let normalized := (values.map jsTrim).filter (fun s => s ≠ "")
    if normalized = [] then DEFAULT_MESSAGE_FIELDS
    else if normalized.contains "*" then ["*"]
    else dedupFirst normalized

/-- `field.split(".").filter(Boolean)`: dot-separated path components,
empty components dropped. -/
def splitPath (field : String) : List String :=
  (splitDot field).filter (fun s => s ≠ "")

mutual

/-- Structural size of a JSON value, used as the recursion-depth bound for
the projection functions. -/
def jsize : Json → Nat
  | .null => 1
  | .bool _ => 1
  | .num _ => 1
  | .str _ => 1
  | .arr xs => 1 + jsizeList xs
  | .obj fs => 1 + jsizeFields fs

/-- Size of a JSON array's elements. -/
def jsizeList : List Json → Nat
  | [] => 0
  | x :: xs => 1 + jsize x + jsizeList xs

/-- Size of a JSON object's fields. -/
def jsizeFields : List (String × Json) → Nat
  | [] => 0
  | (_, v) :: fs => 1 + jsize v + jsizeFields fs

end

/-- One pass of the source's `pathExists`; the fuel argument only bounds
the recursion depth (every recursive call descends into a strict subvalue,
so any fuel at least `jsize value` is enough) and is never exhausted from
`pathExists`. -/
def pathExistsF : Nat → Json → List String → Bool
  | 0, _, _ => false
  | f + 1, value, path =>
    match path with
    | [] => true
    | head :: rest =>
      match value with
      | .arr xs => xs.any (fun x => pathExistsF f x (head :: rest))
      | .obj fs =>
        match (fs.reverse).find? (fun fld => fld.1 == head) with
        | some kv => pathExistsF f kv.2 rest
        | none => false
      | _ => false

/-- Source `pathExists`: an empty path matches anything; arrays match when
some element matches; objects match when the head key is present and the
tail matches its value; primitives match nothing. -/
def pathExists (value : Json) (path : List String) : Bool :=
  pathExistsF (jsize value) value path

/-- One step of the source's bucket `Map`: push `rest` onto the entry for
`head` in place, or append a new entry, as `Map.get`/`Map.set` behave. -/
def addToBuckets (acc : List (String × List (List String))) (head : String)
    (rest : List String) : List (String × List (List String)) :=
  if acc.any (fun b => b.1 = head) then
    acc.map (fun b => if b.1 = head then (b.1, b.2 ++ [rest]) else b)
  else acc ++ [(head, [rest])]

/-- The source's bucket `Map` in `projectValue`: nested paths grouped by
head component, keys in first-occurrence order. -/
def buckets (pathGroups : List (List String)) : List (String × List (List String)) :=
  pathGroups.foldl (fun acc p =>
    match p with
    | [] => acc
    | h :: r => addToBuckets acc h r) []

/-- One pass of the source's `projectValue`; the fuel argument only bounds
the recursion depth (every recursive call descends into a strict subvalue,
so any fuel at least `jsize value` is enough) and is never exhausted from
`projectValue`. -/
def projectValueF : Nat → Json → List (List String) → Option Json
  | 0, _, _ => none
  | f + 1, value, pathGroups =>
    if pathGroups.any (fun p => p.isEmpty) then some value
    else
      match value with
      | .arr xs => some (.arr (xs.filterMap (fun x => projectValueF f x pathGroups)))
      | .obj fs =>
        let output := (buckets pathGroups).filterMap (fun bkt =>
          match (fs.reverse).find? (fun fld => fld.1 == bkt.1) with
          | none => none
          | some kv =>
            match projectValueF f kv.2 bkt.2 with
            | none => none
            | some w => some (bkt.1, w))
        if output.length > 0 then some (.obj output) else none
      | _ => none

/-- Source `projectValue`: an exhausted path keeps the whole value; arrays
project element-wise, dropping elements that become `undefined`; objects
keep each requested head key present in the object whose projected value is
not `undefined`, and become `undefined` when nothing survives; primitives
under a non-exhausted path are `undefined` (`none`). -/
def projectValue (value : Json) (pathGroups : List (List String)) : Option Json :=
  projectValueF (jsize value) value pathGroups

/-- Source `projectMessage`: `*` keeps the message whole; otherwise project
along the split paths (an `undefined` projection becomes `{}`) and report
the requested fields whose path matches nothing in this message. -/
def projectMessage (message : Json) (fields : List String) :
    Json × List String :=
  if fields.contains "*" then (message, [])
  else
    let paths := fields.map splitPath
    let missingFields := fields.filter (fun field => !pathExists message (splitPath field))
    let projected := (projectValue message paths).getD (.obj [])
    (projected, missingFields)

end OC

namespace OC

/-- The response payload assembled by `opencode_get_messages` (the JS object
literal at the end of the handler), field for field. -/
structure PagePayload where
  session_id : String
  items : List Json
  limit : Nat
  cursor : Option (List Char)
  next_cursor : Option (List Char)
  has_more : Bool
  offset : Nat
  returned : Nat
  max_output_tokens : Nat
  estimated_output_tokens : Nat
  truncated : Bool
  finish_reason : String
  requested_fields : List String
  missing_fields : List String
  notice : Option String
deriving DecidableEq

/-- The JS object the source builds for the page response, in insertion
order (the `notice`, added later by `Object.assign`, comes last when
present); `JSON.stringify` of this object is what the envelope token
estimates measure. -/
def payloadJson (p : PagePayload) : Json :=
  .obj ([("session_id", .str p.session_id),
    ("items", .arr p.items),
    ("page", .obj [
      ("limit", .num (p.limit : Int)),
      ("cursor", match p.cursor with | none => .null | some c => .str ⟨c⟩),
      ("next_cursor", match p.next_cursor with | none => .null | some c => .str ⟨c⟩),
      ("has_more", .bool p.has_more),
      ("offset", .num (p.offset : Int)),
      ("returned", .num (p.returned : Int))]),
    ("budget", .obj [
      ("max_output_tokens", .num (p.max_output_tokens : Int)),
      ("estimated_output_tokens", .num (p.estimated_output_tokens : Int)),
      ("truncated", .bool p.truncated),
      ("finish_reason", .str p.finish_reason)]),
    ("projection", .obj [
      ("requested_fields", .arr (p.requested_fields.map .str)),
      ("missing_fields", .arr (p.missing_fields.map .str))])]
    ++ (match p.notice with | none => [] | some s => [("notice", .str s)]))

/-- The incremental budget loop of `opencode_get_messages` (source lines
1680–1695): append projected items one at a time, estimating the serialized
accumulated list, stop once the estimate exceeds the budget — except the
first item is appended unconditionally; the flag is `truncatedByBudget`. -/
def takeWithinBudgetGo (maxOutputTokens : Nat) (acc : List Json) :
    List Json → List Json × Bool
  | [] => (acc, false)
  | item :: restItems =>
    let candidate := acc ++ [item]
    let estimatedTokens := estimateTokensFromString (jserialize (.arr candidate))
    if estimatedTokens ≤ maxOutputTokens ∨ acc.length = 0 then
      takeWithinBudgetGo maxOutputTokens candidate restItems
    else (acc, true)

/-- Entry point of the incremental budget loop. -/
def takeWithinBudget (projectedPage : List Json) (maxOutputTokens : Nat) :
    List Json × Bool :=
  takeWithinBudgetGo maxOutputTokens [] projectedPage

/-- The state the shrink loop writes when it pops an item (source lines
1729–1739): drop the last item, recompute returned count, continuation
cursor, flags and the items-only estimate. -/
def popItem (off : Nat) (p : PagePayload) : PagePayload :=
  { p with
    items := p.items.dropLast,
    returned := p.items.dropLast.length,
    next_cursor := some (encodeCursor ⟨(off + p.items.dropLast.length : Int)⟩),
    has_more := true,
    truncated := true,
    finish_reason := "length",
    estimated_output_tokens := estimateTokensFromString (jserialize (.arr p.items.dropLast)) }

/-- One pass of the envelope safety net's while loop (source lines
1725–1740): while the whole envelope estimate exceeds the budget and items
remain, pop the last item and recompute the page metadata.  The fuel
argument only bounds the iteration count (each pass removes one item, so
any fuel at least the item count is enough) and is never exhausted from
`shrinkPayload`. -/
def shrinkLoop (maxOutputTokens off : Nat) : Nat → PagePayload → PagePayload
  | 0, p => p
  | f + 1, p =>
    if estimateTokensFromObject (payloadJson p) > maxOutputTokens ∧ p.items.length > 0 then
      shrinkLoop maxOutputTokens off f (popItem off p)
    else p

/-- The envelope safety net's while loop, entered with fuel equal to the
item count (the loop can run at most that many times). -/
def shrinkPayload (maxOutputTokens off : Nat) (p : PagePayload) : PagePayload :=
  shrinkLoop maxOutputTokens off p.items.length p

/-- The zero-item fallback (source lines 1742–1756): if the envelope still
exceeds the budget, return an empty page that keeps the *unchanged* input
offset as its continuation cursor and carries an explanatory notice. -/
def emptyFallback (maxOutputTokens off : Nat) (p : PagePayload) : PagePayload :=
  if estimateTokensFromObject (payloadJson p) > maxOutputTokens then
    { p with
      items := [],
      returned := 0,
      has_more := true,
      next_cursor := some (encodeCursor ⟨(off : Int)⟩),
      truncated := true,
      finish_reason := "length",
      estimated_output_tokens := estimateTokensFromString (jserialize (.arr [])),
      notice := some "Payload still exceeds token budget with current field projection. Reduce fields or increase max_output_tokens." }
  else p

/-- Modelled from the spec: the remote `GET /session/{id}/message?limit=`
endpoint (an external collaborator, not part of this repository's sources)
returns the session's ordered message history truncated to `limit`
entries. -/
def listMessages (history : List Json) (limit : Nat) : List Json :=
  history.take limit

/-- The handler's page-size clamp: `Math.min(Math.max(limit ?? 50, 1), 200)`. -/
def clampLimit (limit : Option Int) : Nat :=
  (min (max (limit.getD 50) 1) 200).toNat

/-- The handler's token-budget clamp:
`Math.min(Math.max(max_output_tokens ?? 5000, 1), 20000)`. -/
def clampBudget (max_output_tokens : Option Int) : Nat :=
  (min (max (max_output_tokens.getD 5000) 1) 20000).toNat

/-- The raw page slice of `opencode_get_messages`: fetch
`offset + pageSize + 1` messages (the `+ 1` lookahead), then
`slice(offset, offset + pageSize)`. -/
def rawPageOf (history : List Json) (off pageSize : Nat) : List Json :=
  ((listMessages history (off + pageSize + 1)).drop off).take pageSize

/-- The projected page: each raw message through `projectMessage`. -/
def projectedOf (history : List Json) (off pageSize : Nat)
    (requestedFields : List String) : List Json :=
  (rawPageOf history off pageSize).map (fun m => (projectMessage m requestedFields).1)

/-- The aggregated `missing_fields`: every message's missing list, flattened
in page order and deduplicated with first occurrences kept (the JS `Set`). -/
def missingOf (history : List Json) (off pageSize : Nat)
    (requestedFields : List String) : List String :=
  dedupFirst ((rawPageOf history off pageSize).flatMap
    (fun m => (projectMessage m requestedFields).2))

/-- The page payload `opencode_get_messages` assembles before the envelope
safety net (source lines 1653–1723): slice the raw page, detect further
messages via the lookahead, project, enforce the incremental token budget,
then fill the response object field by field. -/
def basePayload (history : List Json) (sid : String) (off pageSize maxTok : Nat)
    (requestedFields : List String) (cursor : Option (List Char)) : PagePayload :=
  let messages := listMessages history (off + pageSize + 1)
  let rawPage := rawPageOf history off pageSize
  let hasMoreFromSource := decide (off + rawPage.length < messages.length)
  let projectedPage := projectedOf history off pageSize requestedFields
  let res := takeWithinBudget projectedPage maxTok
  let responseItems := res.1
  let truncatedByBudget := res.2
  let nextOffset := off + responseItems.length
  let hasMore := decide (nextOffset < off + projectedPage.length) || hasMoreFromSource
  { session_id := sid,
    items := responseItems,
    limit := pageSize,
    cursor := cursor,
    next_cursor := if hasMore then some (encodeCursor ⟨(nextOffset : Int)⟩) else none,
    has_more := hasMore,
    offset := off,
    returned := responseItems.length,
    max_output_tokens := maxTok,
    estimated_output_tokens := estimateTokensFromString (jserialize (.arr responseItems)),
    truncated := truncatedByBudget,
    finish_reason := if truncatedByBudget then "length" else "stop",
    requested_fields := requestedFields,
    missing_fields := missingOf history off pageSize requestedFields,
    notice := none }

/-- The `opencode_get_messages` handler (source lines 1630–1766) over a
fixed remote history: clamp the page size and token budget, decode the
cursor (failing fast on a malformed one), assemble the page payload, then
apply the envelope safety net and the zero-item fallback. -/
def getMessagesCore (history : List Json) (session_id : String) (limit : Option Int)
    (cursor : Option (List Char)) (max_output_tokens : Option Int)
    (fields : Option (List String)) : Except String PagePayload :=
  match decodeCursor cursor with
  | .error e => .error e
  | .ok cursorData =>
    .ok (emptyFallback (clampBudget max_output_tokens) cursorData.offset.toNat
      (shrinkPayload (clampBudget max_output_tokens) cursorData.offset.toNat
        (basePayload history session_id cursorData.offset.toNat (clampLimit limit)
          (clampBudget max_output_tokens) (parseRequestedFields fields) cursor)))

end OC

namespace OC

/-- Source `getMessageId`: `message.info.id` when it is a non-empty string. -/
def getMessageId (message : Json) : Option String :=
  match jget message "info" with
  | some info =>
    match jget info "id" with
    | some (.str s) => if s = "" then none else some s
    | _ => none
  | none => none

/-- Source `getMessageRole`: `message.info.role` when it is a non-empty
string. -/
def getMessageRole (message : Json) : Option String :=
  match jget message "info" with
  | some info =>
    match jget info "role" with
    | some (.str s) => if s = "" then none else some s
    | _ => none
  | none => none

/-- Source `getMessageParentId`: `message.info.parentID` when it is a
non-empty string. -/
def getMessageParentId (message : Json) : Option String :=
  match jget message "info" with
  | some info =>
    match jget info "parentID" with
    | some (.str s) => if s = "" then none else some s
    | _ => none
  | none => none

/-- Source `findLatestAssistantReplyByParentId`: scan the window from its
end (newest message) backwards for the first assistant message whose
`parentID` equals the target — i.e. the last match in window order. -/
def findLatestAssistantReplyByParentId (messages : List Json)
    (parentMessageId : String) : Option Json :=
  match messages with
  | [] => none
  | m :: rest =>
    match findLatestAssistantReplyByParentId rest parentMessageId with
    | some r => some r
    | none =>
      if getMessageRole m = some "assistant" ∧ getMessageParentId m = some parentMessageId
      then some m
      else none

/-- Source `PendingQuestion.questions` entries. -/
structure PendingQA where
  question : String
  header : String
deriving DecidableEq

/-- Source `PendingQuestion`. -/
structure PendingQuestion where
  id : String
  sessionID : String
  questions : List PendingQA
deriving DecidableEq

/-- Source `normalizePendingQuestions`: a non-array body yields no
questions; array entries that are objects are normalized (string fields
kept, anything else becoming `""`), and entries without both an `id` and a
`sessionID` are dropped. -/
def normalizePendingQuestions (value : Json) : List PendingQuestion :=
  match value with
  | .arr items =>
    ((items.filterMap (fun item =>
      match item with
      | .obj _ =>
        let id := match jget item "id" with | some (.str s) => s | _ => ""
        let sessionID := match jget item "sessionID" with | some (.str s) => s | _ => ""
        let questions := match jget item "questions" with
          | some (.arr rawQuestions) =>
            rawQuestions.filterMap (fun q =>
              match q with
              | .obj _ => some
                  { question := match jget q "question" with | some (.str s) => s | _ => ""
                    header := match jget q "header" with | some (.str s) => s | _ => "" }
              | _ => none)
          | _ => []
        some { id := id, sessionID := sessionID, questions := questions }
      | _ => none)).filter (fun q => q.id ≠ "" ∧ q.sessionID ≠ ""))
  | _ => []

/-- Source `fetchPendingQuestionsForSession` applied to the raw body the
`/question` endpoint returned (`Json.null` models a failed or non-2xx fetch,
which `fetchOptionalJson` swallows into `null`): normalize, then keep the
target session's entries. -/
def pendingQuestionsForSession (raw : Json) (sessionId : String) : List PendingQuestion :=
  (normalizePendingQuestions raw).filter (fun q => q.sessionID = sessionId)

/-- Source `SessionStatusInfo`. -/
structure SessionStatusInfo where
  type : String
  attempt : Option Int
  message : Option String
  next : Option Int
deriving DecidableEq

/-- Source `normalizeSessionStatusInfo`: demand an object whose `type` is
`idle`, `busy` or `retry`; keep well-typed optional fields. -/
def normalizeSessionStatusInfo (value : Json) : Option SessionStatusInfo :=
  match value with
  | .obj _ =>
    match jget value "type" with
    | some (.str t) =>
      if t = "idle" ∨ t = "busy" ∨ t = "retry" then
        some { type := t,
               attempt := match jget value "attempt" with | some (.num n) => some n | _ => none,
               message := match jget value "message" with | some (.str s) => some s | _ => none,
               next := match jget value "next" with | some (.num n) => some n | _ => none }
      else none
    | _ => none
  | _ => none

/-- Source `getSessionStatusForSession`: index the status map (a failed
fetch yields `Json.null`, which is not an object) and normalize. -/
def getSessionStatusForSession (value : Json) (sessionId : String) :
    Option SessionStatusInfo :=
  match value with
  | .obj _ =>
    match jget value sessionId with
    | some entry => normalizeSessionStatusInfo entry
    | none => none
  | _ => none

end OC

namespace OC

/-- One polling iteration's environment: what the remote returns for the
iteration's message fetch (`Except.error` models a thrown
`fetchSessionMessages` failure), the `/session/status` body, the idle
re-fetch (whose failure the source swallows with `.catch`), and the
`/question` body (`Json.null` models a swallowed `fetchOptionalJson`
failure). -/
structure PollStep where
  fetch : Except String (List Json)
  statusRaw : Json
  refetch : Except String (List Json)
  questionsRaw : Json

/-- The ways one `opencode_wait_for_reply` call ends in this model.  The
deadline is modelled by the length of the environment's step list; the
diagnostic payload of the timeout branch is not modelled.  `fetchFailed` is
an exception escaping the handler (the outer catch renders it as an error
result). -/
inductive WaitOutcome where
  | resolved (reply : Json) (replyId : Option String) (streaming : Bool)
      (status : Option SessionStatusInfo)
  | blocked (pending : List PendingQuestion)
  | timedOut
  | fetchFailed (e : String)
  | invalidHandle
deriving DecidableEq

/-- Resolution once a candidate reply is found (source lines 1208–1263):
read the session status; when it is `idle`, re-fetch once (errors
swallowed) and prefer a matching reply from the re-fetch; classify as
streaming exactly when the status is `busy` or `retry`. -/
def resolveReply (step : PollStep) (sessionId targetId : String)
    (latestMatchingReply : Json) : WaitOutcome :=
  let sessionStatus := getSessionStatusForSession step.statusRaw sessionId
  let resolvedReply :=
    if sessionStatus.map SessionStatusInfo.type = some "idle" then
      match step.refetch with
      | .ok refreshedMessages =>
        match findLatestAssistantReplyByParentId refreshedMessages targetId with
        | some refreshedReply => refreshedReply
        | none => latestMatchingReply
      | .error _ => latestMatchingReply
    else latestMatchingReply
  let stillStreaming := sessionStatus.map SessionStatusInfo.type = some "busy"
    ∨ sessionStatus.map SessionStatusInfo.type = some "retry"
  .resolved resolvedReply (getMessageId resolvedReply) (decide stillStreaming) sessionStatus

/-- The polling loop of `opencode_wait_for_reply` (source lines 1195–1305):
each iteration fetches the window (a thrown fetch failure escapes the
loop), resolves on a candidate reply, otherwise returns the blocked outcome
when the session has pending questions, otherwise sleeps and repeats; an
exhausted step list is the deadline. -/
def waitLoop (sessionId targetId : String) : List PollStep → WaitOutcome
  | [] => .timedOut
  | step :: rest =>
    match step.fetch with
    | .error e => .fetchFailed e
    | .ok messages =>
      match findLatestAssistantReplyByParentId messages targetId with
      | some reply => resolveReply step sessionId targetId reply
      | none =>
        let pending := pendingQuestionsForSession step.questionsRaw sessionId
        if pending.length > 0 then .blocked pending
        else waitLoop sessionId targetId rest

/-- The `opencode_wait_for_reply` handler: decode the handle before any
network call, then run the polling loop. -/
def waitForReply (asyncRequestId : List Char) (steps : List PollStep) : WaitOutcome :=
  match decodeAsyncRequestId asyncRequestId with
  | .error _ => .invalidHandle
  | .ok payload => waitLoop payload.session_id payload.message_id steps

/-- The blocked-diagnosis rows `opencode_chat_async` and
`opencode_wait_for_reply` render: request id, question count and headers of
each pending question. -/
def blockedDiagnosis (pending : List PendingQuestion) :
    List (String × Nat × List String) :=
  pending.map (fun q => (q.id, q.questions.length, q.questions.map PendingQA.header))

/-- The ways one `opencode_chat_async` call ends in this model (the
session-creation path for an absent `session_id` is not modelled; the
claims concern an existing target session). -/
inductive ChatAsyncOutcome where
  | blocked (session_id : String) (pending : List (String × Nat × List String))
  | accepted (session_id message_id : String) (submitted_at_ms : Int)
      (async_request_id : List Char)
  | postFailed (e : String)
deriving DecidableEq

/-- The `opencode_chat_async` handler (source lines 1087–1167) for a given
target session: check pending questions first and return the blocked
diagnosis without posting when any exist; otherwise post (`postOk` models
the remote's answer) and hand out the encoded handle.  The second component
records whether a `prompt_async` request was issued. -/
def chatAsync (sessionId messageId : String) (submittedAtMs : Int)
    (questionsRaw : Json) (postOk : Bool) : ChatAsyncOutcome × Bool :=
  let pendingBeforeSend := pendingQuestionsForSession questionsRaw sessionId
  if pendingBeforeSend.length > 0 then
    (.blocked sessionId (blockedDiagnosis pendingBeforeSend), false)
  else if postOk then
    (.accepted sessionId messageId submittedAtMs
      (encodeAsyncRequestId ⟨sessionId, messageId, submittedAtMs⟩), true)
  else (.postFailed "Failed to send async message", true)

end OC

namespace OC

/-- C7: for every valid handle payload (non-empty `session_id`, non-empty
`message_id`, `submitted_at_ms` integer ≥ 0) decoding the encoded handle
reproduces the payload exactly; for every non-negative integer offset up to
at least 2^31 the cursor round-trips likewise; and an absent cursor decodes
to offset 0. -/
theorem C7_codec_roundtrip (p : AsyncRequestPayload) (off : Int)
    (hs : p.session_id ≠ "") (hm : p.message_id ≠ "") (ht : 0 ≤ p.submitted_at_ms)
    (h0 : 0 ≤ off) (h31 : off ≤ 2 ^ 31) :
    decodeAsyncRequestId (encodeAsyncRequestId p) = .ok p
      ∧ decodeCursor (some (encodeCursor ⟨off⟩)) = .ok ⟨off⟩
      ∧ decodeCursor none = .ok ⟨0⟩ :=
  ⟨decode_encode_async p, decode_encode_cursor ⟨off⟩ h0, rfl⟩

theorem C7_codec_roundtrip_witness :
    (("ses_1" : String) ≠ "" ∧ ("msg_async_1_ab" : String) ≠ ""
      ∧ (0 : Int) ≤ 1000 ∧ (0 : Int) ≤ 2 ^ 31 ∧ (2 ^ 31 : Int) ≤ 2 ^ 31)
    ∧ decodeAsyncRequestId (encodeAsyncRequestId ⟨"ses_1", "msg_async_1_ab", 1000⟩)
        = .ok ⟨"ses_1", "msg_async_1_ab", 1000⟩
    ∧ decodeCursor (some (encodeCursor ⟨2 ^ 31⟩)) = .ok ⟨2 ^ 31⟩
    ∧ decodeCursor none = .ok ⟨0⟩ :=
  ⟨⟨by decide, by decide, by decide, by decide, by decide⟩,
    C7_codec_roundtrip ⟨"ses_1", "msg_async_1_ab", 1000⟩ (2 ^ 31)
      (by decide) (by decide) (by decide) (by decide) (by decide)⟩

end OC

namespace OC

instance {α β : Type} [DecidableEq α] [DecidableEq β] : DecidableEq (Except α β) :=
  fun a b =>
    match a, b with
    | .ok x, .ok y => decidable_of_iff (x = y) (by simp)
    | .error x, .error y => decidable_of_iff (x = y) (by simp)
    | .ok _, .error _ => isFalse (fun h => Except.noConfusion h)
    | .error _, .ok _ => isFalse (fun h => Except.noConfusion h)

/-- C8 counterexample: the cursor token encoding `\x7b"offset":null\x7d` has a
wrongly-typed (`null`) `offset` field, yet `decodeCursor` does not fail —
JavaScript `Number(null)` coerces to `0`, so the decoder silently returns
the default offset 0. -/
theorem C8_null_offset_accepted :
    jsonParse (utf8Decode (base64urlDecode ("eyJvZmZzZXQiOm51bGx9".data)))
        = some (.obj [("offset", .null)])
      ∧ decodeCursor (some ("eyJvZmZzZXQiOm51bGx9".data)) = .ok ⟨0⟩ := by
  exact ⟨by decide, by decide⟩

end OC

namespace OC

/-- C9: whenever `opencode_chat_async` finds at least one pending question
for the target session, it returns the blocked diagnosis (session id plus
each pending question's request id, question count and headers) and no
`prompt_async` request is issued. -/
theorem C9_submission_gate (sessionId messageId : String) (submittedAtMs : Int)
    (questionsRaw : Json) (postOk : Bool)
    (h : pendingQuestionsForSession questionsRaw sessionId ≠ []) :
    chatAsync sessionId messageId submittedAtMs questionsRaw postOk
      = (.blocked sessionId
          (blockedDiagnosis (pendingQuestionsForSession questionsRaw sessionId)), false) := by
  have hl : 0 < (pendingQuestionsForSession questionsRaw sessionId).length :=
    List.length_pos.mpr h
  unfold chatAsync
  simp [hl]

theorem C9_submission_gate_witness :
    pendingQuestionsForSession
        (.arr [.obj [("id", .str "q1"), ("sessionID", .str "ses_1"),
          ("questions", .arr [.obj [("question", .str "Proceed?"),
            ("header", .str "Confirm")]])]]) "ses_1" ≠ []
    ∧ chatAsync "ses_1" "msg_1" 7
        (.arr [.obj [("id", .str "q1"), ("sessionID", .str "ses_1"),
          ("questions", .arr [.obj [("question", .str "Proceed?"),
            ("header", .str "Confirm")]])]]) true
      = (.blocked "ses_1"
          (blockedDiagnosis (pendingQuestionsForSession
            (.arr [.obj [("id", .str "q1"), ("sessionID", .str "ses_1"),
              ("questions", .arr [.obj [("question", .str "Proceed?"),
                ("header", .str "Confirm")]])]]) "ses_1")), false) :=
  ⟨by decide,
    C9_submission_gate "ses_1" "msg_1" 7
      (.arr [.obj [("id", .str "q1"), ("sessionID", .str "ses_1"),
        ("questions", .arr [.obj [("question", .str "Proceed?"),
          ("header", .str "Confirm")]])]]) true (by decide)⟩

/-- C10 (implicit): a failed pending-question fetch is swallowed — the
`/question` body `fetchOptionalJson` hands back is `null`, which normalizes
to no pending questions, so `opencode_chat_async` still posts the message
(never returning the blocked outcome), and a polling iteration of
`opencode_wait_for_reply` that finds no reply simply continues to the next
iteration instead of aborting. -/
theorem C10_question_fetch_swallowed (sid mid tid : String) (submittedAtMs : Int)
    (postOk : Bool) (step : PollStep) (rest : List PollStep) (msgs : List Json)
    (hf : step.fetch = .ok msgs)
    (hnr : findLatestAssistantReplyByParentId msgs tid = none)
    (hq : step.questionsRaw = .null) :
    pendingQuestionsForSession .null sid = []
    ∧ (chatAsync sid mid submittedAtMs .null postOk).2 = true
    ∧ (∀ pending, (chatAsync sid mid submittedAtMs .null postOk).1
        ≠ .blocked sid pending)
    ∧ waitLoop sid tid (step :: rest) = waitLoop sid tid rest := by
  refine ⟨rfl, by cases postOk <;> rfl, by cases postOk <;> (intro pending h; cases h), ?_⟩
  rw [waitLoop.eq_def]
  simp only []
  rw [hf]
  simp only []
  rw [hnr]
  simp only []
  rw [hq]
  rfl

theorem C10_question_fetch_swallowed_witness :
    ((⟨.ok [], .null, .ok [], .null⟩ : PollStep).fetch = .ok []
      ∧ findLatestAssistantReplyByParentId [] "m" = none
      ∧ (⟨.ok [], .null, .ok [], .null⟩ : PollStep).questionsRaw = .null)
    ∧ (pendingQuestionsForSession .null "s" = []
      ∧ (chatAsync "s" "m" 7 .null true).2 = true
      ∧ (∀ pending, (chatAsync "s" "m" 7 .null true).1 ≠ .blocked "s" pending)
      ∧ waitLoop "s" "m" [⟨.ok [], .null, .ok [], .null⟩] = waitLoop "s" "m" []) :=
  ⟨⟨rfl, rfl, rfl⟩,
    C10_question_fetch_swallowed "s" "m" "m" 7 true ⟨.ok [], .null, .ok [], .null⟩ [] []
      rfl rfl rfl⟩

/-- C6 counterexample: a failing per-iteration message fetch aborts
`opencode_wait_for_reply` at once — with a failing first step followed by a
step that would resolve, the loop ends in the fetch failure instead of
retrying; the same environment without the faulty step resolves. -/
theorem C6_fetch_failure_aborts :
    waitLoop "s" "m"
        [⟨.error "fetch failed", .null, .ok [], .null⟩,
         ⟨.ok [.obj [("info", .obj [("id", .str "r1"), ("role", .str "assistant"),
            ("parentID", .str "m")])]], .null, .ok [], .null⟩]
      = .fetchFailed "fetch failed"
    ∧ waitLoop "s" "m"
        [⟨.ok [.obj [("info", .obj [("id", .str "r1"), ("role", .str "assistant"),
            ("parentID", .str "m")])]], .null, .ok [], .null⟩]
      = .resolved
          (.obj [("info", .obj [("id", .str "r1"), ("role", .str "assistant"),
            ("parentID", .str "m")])]) (some "r1") false none := by
  exact ⟨by decide, by decide⟩

/-- C6 (amended): a failure of the per-iteration message fetch is an
exception that escapes the polling loop — the whole wait aborts at once
with that failure, regardless of how many polling iterations remain; only
an exhausted deadline times out. -/
theorem C6_fetch_failure_propagates (sid tid e : String) (step : PollStep)
    (rest : List PollStep) (he : step.fetch = .error e) :
    waitLoop sid tid (step :: rest) = .fetchFailed e
    ∧ waitLoop sid tid [] = .timedOut := by
  constructor
  · rw [waitLoop.eq_def]
    simp only []
    rw [he]
  · rfl

theorem C6_fetch_failure_propagates_witness :
    ((⟨.error "boom", .null, .ok [], .null⟩ : PollStep).fetch = .error "boom")
    ∧ (waitLoop "s" "m" [⟨.error "boom", .null, .ok [], .null⟩] = .fetchFailed "boom"
      ∧ waitLoop "s" "m" [] = .timedOut) :=
  ⟨rfl, C6_fetch_failure_propagates "s" "m" "boom" ⟨.error "boom", .null, .ok [], .null⟩ [] rfl⟩

end OC

namespace OC

/-- C8 (amended): a handle decodes successfully only when the token's JSON
carries a string `session_id`, a string `message_id` and a numeric
`submitted_at_ms` with exactly the decoded values (so a missing or
wrongly-typed handle field, or undecodable text, fails); a handle that
fails to decode makes `opencode_wait_for_reply` fail before any network
step is consulted; and a successful non-empty cursor decode yields a
non-negative offset equal to the JavaScript `Number(...)` coercion of the
token's `offset` property — which, beyond the sanctioned absent/empty
default of 0, silently accepts `null`, booleans and numeric strings rather
than rejecting them as wrongly typed. -/
theorem C8_token_decoding (tok cs : List Char) (steps : List PollStep)
    (hcs : cs ≠ []) :
    (∀ p, decodeAsyncRequestId tok = .ok p →
      ∃ j, jsonParse (utf8Decode (base64urlDecode tok)) = some j
        ∧ jget j "session_id" = some (.str p.session_id)
        ∧ jget j "message_id" = some (.str p.message_id)
        ∧ jget j "submitted_at_ms" = some (.num p.submitted_at_ms))
    ∧ ((decodeAsyncRequestId tok).isOk = false →
        waitForReply tok steps = .invalidHandle)
    ∧ (∀ c, decodeCursor (some cs) = .ok c →
        0 ≤ c.offset
        ∧ ∃ j, jsonParse (utf8Decode (base64urlDecode cs)) = some j
          ∧ jsToNumber (jget j "offset") = some c.offset) := by
  refine ⟨?_, ?_, ?_⟩
  · intro p h
    unfold decodeAsyncRequestId at h
    split at h
    · cases h
    · rename_i j hj
      split at h
      · rename_i sid mid ts hsid hmid hts
        cases h
        exact ⟨j, hj, hsid, hmid, hts⟩
      · cases h
  · intro h
    unfold waitForReply
    cases hd : decodeAsyncRequestId tok with
    | error e => rfl
    | ok payload => rw [hd] at h; cases h
  · intro c h
    unfold decodeCursor at h
    simp only [] at h
    rw [if_neg hcs] at h
    split at h
    · cases h
    · rename_i j hj
      split at h
      · cases h
      · rename_i off hoff
        split at h
        · cases h
        · rename_i hneg
          cases h
          refine ⟨?_, j, hj, hoff⟩
          show (0 : Int) ≤ off
          omega

theorem C8_token_decoding_witness :
    ("eyJvZmZzZXQiOjJ9".data ≠ ([] : List Char))
    ∧ ((∀ p, decodeAsyncRequestId "###".data = .ok p →
        ∃ j, jsonParse (utf8Decode (base64urlDecode "###".data)) = some j
          ∧ jget j "session_id" = some (.str p.session_id)
          ∧ jget j "message_id" = some (.str p.message_id)
          ∧ jget j "submitted_at_ms" = some (.num p.submitted_at_ms))
      ∧ ((decodeAsyncRequestId "###".data).isOk = false →
          waitForReply "###".data [] = .invalidHandle)
      ∧ (∀ c, decodeCursor (some "eyJvZmZzZXQiOjJ9".data) = .ok c →
          0 ≤ c.offset
          ∧ ∃ j, jsonParse (utf8Decode (base64urlDecode "eyJvZmZzZXQiOjJ9".data)) = some j
            ∧ jsToNumber (jget j "offset") = some c.offset)) :=
  ⟨by decide, C8_token_decoding "###".data "eyJvZmZzZXQiOjJ9".data [] (by decide)⟩

end OC

namespace OC

theorem tWBG_cons (m : Nat) (acc : List Json) (item : Json) (rest : List Json) :
    takeWithinBudgetGo m acc (item :: rest)
      = if estimateTokensFromString (jserialize (.arr (acc ++ [item]))) ≤ m ∨ acc.length = 0
        then takeWithinBudgetGo m (acc ++ [item]) rest else (acc, true) := rfl

theorem tWBG_ne_nil (m : Nat) (page : List Json) : ∀ acc : List Json, acc ≠ [] →
    (takeWithinBudgetGo m acc page).1 ≠ [] := by
  induction page with
  | nil => intro acc h; exact h
  | cons item rest ih =>
    intro acc h
    rw [tWBG_cons]
    by_cases hc : estimateTokensFromString (jserialize (.arr (acc ++ [item]))) ≤ m
        ∨ acc.length = 0
    · rw [if_pos hc]; exact ih (acc ++ [item]) (by simp)
    · rw [if_neg hc]; exact h

theorem tWBG_untruncated (m : Nat) (page : List Json) : ∀ acc : List Json,
    (takeWithinBudgetGo m acc page).2 = false →
    (takeWithinBudgetGo m acc page).1 = acc ++ page := by
  induction page with
  | nil => intro acc _; simp [takeWithinBudgetGo]
  | cons item rest ih =>
    intro acc h
    rw [tWBG_cons] at h ⊢
    by_cases hc : estimateTokensFromString (jserialize (.arr (acc ++ [item]))) ≤ m
        ∨ acc.length = 0
    · rw [if_pos hc] at h ⊢
      rw [ih _ h]
      simp
    · rw [if_neg hc] at h
      simp at h

theorem tWBG_truncated_lt (m : Nat) (page : List Json) : ∀ acc : List Json,
    (takeWithinBudgetGo m acc page).2 = true →
    (takeWithinBudgetGo m acc page).1.length < acc.length + page.length := by
  induction page with
  | nil => intro acc h; simp [takeWithinBudgetGo] at h
  | cons item rest ih =>
    intro acc h
    rw [tWBG_cons] at h ⊢
    by_cases hc : estimateTokensFromString (jserialize (.arr (acc ++ [item]))) ≤ m
        ∨ acc.length = 0
    · rw [if_pos hc] at h ⊢
      have := ih _ h
      simp only [List.length_append, List.length_cons, List.length_nil] at this ⊢
      omega
    · rw [if_neg hc]
      simp only [List.length_cons]
      omega

theorem tWBG_split (m : Nat) (page : List Json) : ∀ acc : List Json,
    ∃ t u, page = t ++ u ∧ (takeWithinBudgetGo m acc page).1 = acc ++ t := by
  induction page with
  | nil => intro acc; exact ⟨[], [], rfl, by simp [takeWithinBudgetGo]⟩
  | cons item rest ih =>
    intro acc
    rw [tWBG_cons]
    by_cases hc : estimateTokensFromString (jserialize (.arr (acc ++ [item]))) ≤ m
        ∨ acc.length = 0
    · rw [if_pos hc]
      obtain ⟨t, u, h1, h2⟩ := ih (acc ++ [item])
      exact ⟨item :: t, u, by simp [h1], by simp [h2]⟩
    · rw [if_neg hc]
      exact ⟨[], item :: rest, by simp, by simp⟩

theorem takeWithinBudget_ne_nil (page : List Json) (m : Nat) (h : page ≠ []) :
    (takeWithinBudget page m).1 ≠ [] := by
  match page with
  | [] => exact absurd rfl h
  | item :: rest =>
    unfold takeWithinBudget
    rw [tWBG_cons]
    have hc : estimateTokensFromString (jserialize (.arr ([] ++ [item]))) ≤ m
        ∨ ([] : List Json).length = 0 := Or.inr rfl
    rw [if_pos hc]
    exact tWBG_ne_nil m rest [item] (by simp)

/-- The page-metadata invariant the truncation path establishes and the
envelope safety net preserves: the truncation flags are set, more data is
advertised, and the continuation cursor always encodes
`offset + items actually kept`. -/
def PageInv (off : Nat) (p : PagePayload) : Prop :=
  p.truncated = true ∧ p.has_more = true ∧ p.finish_reason = "length"
    ∧ p.returned = p.items.length
    ∧ p.next_cursor = some (encodeCursor ⟨(off + p.items.length : Int)⟩)

theorem shrinkLoop_inv (m off : Nat) : ∀ (f : Nat) (p : PagePayload),
    PageInv off p → PageInv off (shrinkLoop m off f p) := by
  intro f
  induction f with
  | zero => intro p h; exact h
  | succ f ih =>
    intro p h
    rw [shrinkLoop.eq_def]
    simp only []
    split
    · exact ih (popItem off p) ⟨rfl, rfl, rfl, rfl, rfl⟩
    · exact h

theorem emptyFallback_inv (m off : Nat) (p : PagePayload) (h : PageInv off p) :
    PageInv off (emptyFallback m off p) := by
  unfold emptyFallback
  split
  · exact ⟨rfl, rfl, rfl, rfl, rfl⟩
  · exact h

/-- Unfolding `getMessagesCore` once the cursor decodes. -/
theorem getMessagesCore_ok (history : List Json) (sid : String) (limit : Option Int)
    (cursor : Option (List Char)) (mot : Option Int) (fields : Option (List String))
    (cd : CursorPayload) (hdec : decodeCursor cursor = .ok cd) :
    getMessagesCore history sid limit cursor mot fields
      = .ok (emptyFallback (clampBudget mot) cd.offset.toNat
          (shrinkPayload (clampBudget mot) cd.offset.toNat
            (basePayload history sid cd.offset.toNat (clampLimit limit) (clampBudget mot)
              (parseRequestedFields fields) cursor))) := by
  unfold getMessagesCore
  rw [hdec]

/-- The composite `has_more` flag of the assembled payload. -/
def hasMoreOf (history : List Json) (off pageSize maxTok : Nat) (flds : List String) : Bool :=
  decide (off + (takeWithinBudget (projectedOf history off pageSize flds) maxTok).1.length
      < off + (projectedOf history off pageSize flds).length)
    || decide (off + (rawPageOf history off pageSize).length
      < (listMessages history (off + pageSize + 1)).length)

theorem basePayload_eq (history : List Json) (sid : String) (off pageSize maxTok : Nat)
    (flds : List String) (cursor : Option (List Char)) :
    basePayload history sid off pageSize maxTok flds cursor
      = { session_id := sid,
          items := (takeWithinBudget (projectedOf history off pageSize flds) maxTok).1,
          limit := pageSize,
          cursor := cursor,
          next_cursor := if hasMoreOf history off pageSize maxTok flds
            then some (encodeCursor ⟨(off + (takeWithinBudget
              (projectedOf history off pageSize flds) maxTok).1.length : Int)⟩)
            else none,
          has_more := hasMoreOf history off pageSize maxTok flds,
          offset := off,
          returned := (takeWithinBudget (projectedOf history off pageSize flds) maxTok).1.length,
          max_output_tokens := maxTok,
          estimated_output_tokens := estimateTokensFromString (jserialize
            (.arr (takeWithinBudget (projectedOf history off pageSize flds) maxTok).1)),
          truncated := (takeWithinBudget (projectedOf history off pageSize flds) maxTok).2,
          finish_reason := if (takeWithinBudget (projectedOf history off pageSize flds) maxTok).2
            then "length" else "stop",
          requested_fields := flds,
          missing_fields := missingOf history off pageSize flds,
          notice := none } := rfl

end OC

namespace OC

/-- C2: when the incremental token estimate exceeds the clamped
`max_output_tokens` mid-page, the budget loop still keeps at least one item
(the first is appended unconditionally), and the returned payload reports
`truncated = true` with `finish_reason = "length"`, `has_more = true`
regardless of what the source lookahead said, and a continuation cursor
encoding `input offset + number of items actually returned`. -/
theorem C2_budget_truncation (history : List Json) (sid : String)
    (limit mot : Option Int) (cursor : Option (List Char)) (fields : Option (List String))
    (cd : CursorPayload) (p : PagePayload)
    (hdec : decodeCursor cursor = .ok cd)
    (hok : getMessagesCore history sid limit cursor mot fields = .ok p)
    (htr : (takeWithinBudget (projectedOf history cd.offset.toNat (clampLimit limit)
        (parseRequestedFields fields)) (clampBudget mot)).2 = true) :
    (takeWithinBudget (projectedOf history cd.offset.toNat (clampLimit limit)
        (parseRequestedFields fields)) (clampBudget mot)).1 ≠ []
    ∧ p.truncated = true
    ∧ p.finish_reason = "length"
    ∧ p.has_more = true
    ∧ p.returned = p.items.length
    ∧ p.next_cursor = some (encodeCursor ⟨(cd.offset.toNat + p.items.length : Int)⟩) := by
  rw [getMessagesCore_ok history sid limit cursor mot fields cd hdec] at hok
  have hp : p = emptyFallback (clampBudget mot) cd.offset.toNat
      (shrinkPayload (clampBudget mot) cd.offset.toNat
        (basePayload history sid cd.offset.toNat (clampLimit limit) (clampBudget mot)
          (parseRequestedFields fields) cursor)) := by
    cases hok; rfl
  have hne : projectedOf history cd.offset.toNat (clampLimit limit)
      (parseRequestedFields fields) ≠ [] := by
    intro hnil
    rw [hnil] at htr
    simp [takeWithinBudget, takeWithinBudgetGo] at htr
  have hres_ne := takeWithinBudget_ne_nil _ (clampBudget mot) hne
  have hlt := tWBG_truncated_lt (clampBudget mot)
    (projectedOf history cd.offset.toNat (clampLimit limit) (parseRequestedFields fields))
    [] htr
  have hhm : hasMoreOf history cd.offset.toNat (clampLimit limit) (clampBudget mot)
      (parseRequestedFields fields) = true := by
    unfold hasMoreOf
    have hlt2 : cd.offset.toNat + (takeWithinBudget (projectedOf history cd.offset.toNat
          (clampLimit limit) (parseRequestedFields fields)) (clampBudget mot)).1.length
        < cd.offset.toNat + (projectedOf history cd.offset.toNat (clampLimit limit)
          (parseRequestedFields fields)).length := by
      unfold takeWithinBudget
      simp only [List.length_nil] at hlt
      omega
    simp [hlt2]
  have hbase : PageInv cd.offset.toNat
      (basePayload history sid cd.offset.toNat (clampLimit limit) (clampBudget mot)
        (parseRequestedFields fields) cursor) := by
    rw [basePayload_eq]
    refine ⟨htr, hhm, ?_, rfl, ?_⟩
    · show (if (takeWithinBudget (projectedOf history cd.offset.toNat (clampLimit limit)
          (parseRequestedFields fields)) (clampBudget mot)).2 = true
        then "length" else "stop") = "length"
      simp [htr]
    · show (if hasMoreOf history cd.offset.toNat (clampLimit limit) (clampBudget mot)
            (parseRequestedFields fields) = true
          then some (encodeCursor ⟨(cd.offset.toNat + (takeWithinBudget
            (projectedOf history cd.offset.toNat (clampLimit limit)
              (parseRequestedFields fields)) (clampBudget mot)).1.length : Int)⟩)
          else none) = _
      simp [hhm]
  have hinv : PageInv cd.offset.toNat p := by
    rw [hp]
    exact emptyFallback_inv _ _ _ (shrinkLoop_inv _ _ _ _ hbase)
  obtain ⟨h1, h2, h3, h4, h5⟩ := hinv
  exact ⟨hres_ne, h1, h3, h2, h4, h5⟩

end OC

namespace OC

theorem C2_budget_truncation_witness :
    (decodeCursor none = .ok ⟨0⟩
      ∧ getMessagesCore [.obj [("a", .num 1)], .obj [("t", .str ⟨List.replicate 400 'x'⟩)]]
          "s" (some 2) none (some 90) (some ["*"])
        = .ok (⟨"s", [.obj [("a", .num 1)]], 2, none, some "eyJvZmZzZXQiOjF9".data, true,
            0, 1, 90, 3, true, "length", ["*"], [], none⟩ : PagePayload)
      ∧ (takeWithinBudget (projectedOf
            [.obj [("a", .num 1)], .obj [("t", .str ⟨List.replicate 400 'x'⟩)]]
            (0 : Int).toNat (clampLimit (some 2)) (parseRequestedFields (some ["*"])))
          (clampBudget (some 90))).2 = true)
    ∧ ((takeWithinBudget (projectedOf
            [.obj [("a", .num 1)], .obj [("t", .str ⟨List.replicate 400 'x'⟩)]]
            (0 : Int).toNat (clampLimit (some 2)) (parseRequestedFields (some ["*"])))
          (clampBudget (some 90))).1 ≠ []
      ∧ (⟨"s", [.obj [("a", .num 1)]], 2, none, some "eyJvZmZzZXQiOjF9".data, true,
          0, 1, 90, 3, true, "length", ["*"], [], none⟩ : PagePayload).truncated = true
      ∧ (⟨"s", [.obj [("a", .num 1)]], 2, none, some "eyJvZmZzZXQiOjF9".data, true,
          0, 1, 90, 3, true, "length", ["*"], [], none⟩ : PagePayload).finish_reason = "length"
      ∧ (⟨"s", [.obj [("a", .num 1)]], 2, none, some "eyJvZmZzZXQiOjF9".data, true,
          0, 1, 90, 3, true, "length", ["*"], [], none⟩ : PagePayload).has_more = true
      ∧ (⟨"s", [.obj [("a", .num 1)]], 2, none, some "eyJvZmZzZXQiOjF9".data, true,
          0, 1, 90, 3, true, "length", ["*"], [], none⟩ : PagePayload).returned
        = (⟨"s", [.obj [("a", .num 1)]], 2, none, some "eyJvZmZzZXQiOjF9".data, true,
          0, 1, 90, 3, true, "length", ["*"], [], none⟩ : PagePayload).items.length
      ∧ (⟨"s", [.obj [("a", .num 1)]], 2, none, some "eyJvZmZzZXQiOjF9".data, true,
          0, 1, 90, 3, true, "length", ["*"], [], none⟩ : PagePayload).next_cursor
        = some (encodeCursor ⟨((0 : Int).toNat
            + (⟨"s", [.obj [("a", .num 1)]], 2, none, some "eyJvZmZzZXQiOjF9".data, true,
              0, 1, 90, 3, true, "length", ["*"], [],
              none⟩ : PagePayload).items.length : Int)⟩)) :=
  ⟨⟨by decide, by decide, by decide⟩,
    C2_budget_truncation
      [.obj [("a", .num 1)], .obj [("t", .str ⟨List.replicate 400 'x'⟩)]]
      "s" (some 2) (some 90) none (some ["*"]) ⟨0⟩
      ⟨"s", [.obj [("a", .num 1)]], 2, none, some "eyJvZmZzZXQiOjF9".data, true,
        0, 1, 90, 3, true, "length", ["*"], [], none⟩
      (by decide) (by decide) (by decide)⟩

end OC

namespace OC

theorem shrinkLoop_notice (m off : Nat) : ∀ (f : Nat) (p : PagePayload),
    (shrinkLoop m off f p).notice = p.notice := by
  intro f
  induction f with
  | zero => intro p; rfl
  | succ f ih =>
    intro p
    rw [shrinkLoop.eq_def]
    simp only []
    split
    · rw [ih]; rfl
    · rfl

theorem shrinkLoop_fits (m off : Nat) : ∀ (f : Nat) (p : PagePayload),
    p.items.length ≤ f →
    estimateTokensFromObject (payloadJson (shrinkLoop m off f p)) ≤ m
      ∨ (shrinkLoop m off f p).items = [] := by
  intro f
  induction f with
  | zero =>
    intro p hf
    exact Or.inr (List.length_eq_zero.mp (Nat.le_zero.mp hf))
  | succ f ih =>
    intro p hf
    rw [shrinkLoop.eq_def]
    simp only []
    split
    · rename_i hcond
      apply ih
      have hlen : (popItem off p).items.length = p.items.length - 1 := by
        show p.items.dropLast.length = _
        simp [List.length_dropLast]
      omega
    · rename_i hcond
      by_cases he : estimateTokensFromObject (payloadJson p) ≤ m
      · exact Or.inl he
      · have hz : ¬ p.items.length > 0 := fun hl => hcond ⟨by omega, hl⟩
        exact Or.inr (List.length_eq_zero.mp (by omega))

/-- C3 counterexample: one oversized message with a budget between the
empty-envelope estimate and the one-item envelope estimate — the safety net
drops the only item, so a zero-item page comes back although the empty
envelope (75 tokens against the budget of 100) does NOT exceed the budget,
and no notice is attached. -/
theorem C3_zero_items_no_notice :
    (getMessagesCore [.obj [("t", .str ⟨List.replicate 400 'x'⟩)]] "s" (some 1) none
        (some 100) (some ["*"])).map
        (fun p => (p.items, p.notice, p.has_more, p.truncated,
          decide (estimateTokensFromObject (payloadJson p) ≤ 100)))
      = .ok ([], none, true, true, true) := by
  decide

/-- C3 (amended): the envelope safety net drops items from the end while
the envelope estimate exceeds the budget and items remain, so the loop
stops with the envelope within budget or no items left; the explanatory
notice is attached exactly when even the post-shrink (in particular the
zero-item) envelope still exceeds the budget, and in that notice case the
page is empty, `has_more = true` and the continuation cursor encodes the
unchanged input offset.  (A zero-item page itself does not imply the
notice: the empty envelope may be back within budget.) -/
theorem C3_envelope_safety_net (m off : Nat) (p : PagePayload) (hn : p.notice = none) :
    (estimateTokensFromObject (payloadJson (shrinkPayload m off p)) ≤ m
      ∨ (shrinkPayload m off p).items = [])
    ∧ ((emptyFallback m off (shrinkPayload m off p)).notice ≠ none
        ↔ m < estimateTokensFromObject (payloadJson (shrinkPayload m off p)))
    ∧ (m < estimateTokensFromObject (payloadJson (shrinkPayload m off p)) →
        (emptyFallback m off (shrinkPayload m off p)).items = []
        ∧ (emptyFallback m off (shrinkPayload m off p)).has_more = true
        ∧ (emptyFallback m off (shrinkPayload m off p)).next_cursor
            = some (encodeCursor ⟨(off : Int)⟩)
        ∧ (emptyFallback m off (shrinkPayload m off p)).notice
            = some "Payload still exceeds token budget with current field projection. Reduce fields or increase max_output_tokens.") := by
  refine ⟨shrinkLoop_fits m off p.items.length p le_rfl, ?_, ?_⟩
  · unfold emptyFallback
    split
    · rename_i hgt
      constructor
      · intro _; omega
      · intro _; simp
    · rename_i hle
      constructor
      · intro hne
        exact absurd (shrinkLoop_notice m off p.items.length p ▸ hn) hne
      · intro hlt; omega
  · intro hlt
    unfold emptyFallback
    rw [if_pos (by omega : estimateTokensFromObject (payloadJson (shrinkPayload m off p)) > m)]
    exact ⟨rfl, rfl, rfl, rfl⟩

theorem C3_envelope_safety_net_witness :
    ((⟨"s", [.obj [("a", .num 1)]], 1, none, none, false, 0, 1, 5, 3, false, "stop",
        ["*"], [], none⟩ : PagePayload).notice = none)
    ∧ ((estimateTokensFromObject (payloadJson (shrinkPayload 5 0
          (⟨"s", [.obj [("a", .num 1)]], 1, none, none, false, 0, 1, 5, 3, false, "stop",
            ["*"], [], none⟩ : PagePayload))) ≤ 5
        ∨ (shrinkPayload 5 0 (⟨"s", [.obj [("a", .num 1)]], 1, none, none, false, 0, 1, 5,
            3, false, "stop", ["*"], [], none⟩ : PagePayload)).items = [])
      ∧ ((emptyFallback 5 0 (shrinkPayload 5 0 (⟨"s", [.obj [("a", .num 1)]], 1, none, none,
            false, 0, 1, 5, 3, false, "stop", ["*"], [], none⟩ : PagePayload))).notice ≠ none
          ↔ 5 < estimateTokensFromObject (payloadJson (shrinkPayload 5 0
            (⟨"s", [.obj [("a", .num 1)]], 1, none, none, false, 0, 1, 5, 3, false, "stop",
              ["*"], [], none⟩ : PagePayload))))
      ∧ (5 < estimateTokensFromObject (payloadJson (shrinkPayload 5 0
            (⟨"s", [.obj [("a", .num 1)]], 1, none, none, false, 0, 1, 5, 3, false, "stop",
              ["*"], [], none⟩ : PagePayload))) →
          (emptyFallback 5 0 (shrinkPayload 5 0 (⟨"s", [.obj [("a", .num 1)]], 1, none, none,
            false, 0, 1, 5, 3, false, "stop", ["*"], [], none⟩ : PagePayload))).items = []
          ∧ (emptyFallback 5 0 (shrinkPayload 5 0 (⟨"s", [.obj [("a", .num 1)]], 1, none,
            none, false, 0, 1, 5, 3, false, "stop", ["*"], [],
            none⟩ : PagePayload))).has_more = true
          ∧ (emptyFallback 5 0 (shrinkPayload 5 0 (⟨"s", [.obj [("a", .num 1)]], 1, none,
            none, false, 0, 1, 5, 3, false, "stop", ["*"], [],
            none⟩ : PagePayload))).next_cursor = some (encodeCursor ⟨(0 : Int)⟩)
          ∧ (emptyFallback 5 0 (shrinkPayload 5 0 (⟨"s", [.obj [("a", .num 1)]], 1, none,
            none, false, 0, 1, 5, 3, false, "stop", ["*"], [],
            none⟩ : PagePayload))).notice
            = some "Payload still exceeds token budget with current field projection. Reduce fields or increase max_output_tokens.")) :=
  ⟨rfl, C3_envelope_safety_net 5 0
    (⟨"s", [.obj [("a", .num 1)]], 1, none, none, false, 0, 1, 5, 3, false, "stop",
      ["*"], [], none⟩ : PagePayload) rfl⟩

end OC

namespace OC

/-- Containment check for projection outputs: every part of the value lies
under one of the requested path groups — an exhausted group admits the
whole subtree, an array is checked element-wise, an object may only hold
keys that head some group (checked recursively against that group's
tails), and a primitive is admitted only under an exhausted group. -/
def underPathsF : Nat → Json → List (List String) → Bool
  | 0, _, _ => false
  | f + 1, v, pgs =>
    if pgs.any (fun p => p.isEmpty) then true
    else
      match v with
      | .arr xs => xs.all (fun x => underPathsF f x pgs)
      | .obj fs => fs.all (fun kv => (buckets pgs).any
          (fun b => b.1 == kv.1 && underPathsF f kv.2 b.2))
      | _ => false

theorem projectValueF_under : ∀ (f : Nat) (v : Json) (pgs : List (List String)) (w : Json),
    projectValueF f v pgs = some w → underPathsF f w pgs = true := by
  intro f
  induction f with
  | zero => intro v pgs w h; cases h
  | succ f ih =>
    intro v pgs w h
    rw [projectValueF.eq_def] at h
    simp only [] at h
    rw [underPathsF.eq_def]
    simp only []
    by_cases hemp : pgs.any (fun p => p.isEmpty)
    · rw [if_pos hemp]
    · rw [if_neg hemp] at h ⊢
      match v with
      | .null => exact absurd h (by simp)
      | .bool b => exact absurd h (by simp)
      | .num n => exact absurd h (by simp)
      | .str s => exact absurd h (by simp)
      | .arr xs =>
        simp only [] at h
        cases h
        simp only [List.all_eq_true]
        intro y hy
        obtain ⟨x, hx, hxy⟩ := List.mem_filterMap.mp hy
        exact ih x pgs y hxy
      | .obj fs =>
        simp only [] at h
        split at h
        · rename_i hlen
          cases h
          simp only [List.all_eq_true]
          intro kv hkv
          obtain ⟨bkt, hbkt, heq⟩ := List.mem_filterMap.mp hkv
          split at heq
          · cases heq
          · rename_i kv2 hfind
            split at heq
            · cases heq
            · rename_i w2 hproj
              cases heq
              refine List.any_eq_true.mpr ⟨bkt, hbkt, ?_⟩
              simp [ih kv2.2 bkt.2 w2 hproj]
        · cases h

end OC

namespace OC

/-- With `*` absent, a projected message is either the empty-object
fallback or contains only content under the requested paths. -/
theorem projectMessage_under (msg : Json) (fields : List String)
    (hstar : fields.contains "*" = false) :
    (projectMessage msg fields).1 = .obj []
      ∨ underPathsF (jsize msg) (projectMessage msg fields).1 (fields.map splitPath) = true := by
  unfold projectMessage
  rw [if_neg (by rw [hstar]; exact Bool.false_ne_true)]
  cases hpv : projectValue msg (fields.map splitPath) with
  | none => left; simp [hpv]
  | some w =>
    right
    have := projectValueF_under (jsize msg) msg (fields.map splitPath) w hpv
    simpa [hpv] using this

/-- With `*` absent, a message's reported missing fields are exactly the
requested fields whose split path matches nothing in the message. -/
theorem projectMessage_missing (msg : Json) (fields : List String)
    (hstar : fields.contains "*" = false) :
    (projectMessage msg fields).2
      = fields.filter (fun field => !pathExists msg (splitPath field)) := by
  unfold projectMessage
  rw [if_neg (by rw [hstar]; exact Bool.false_ne_true)]

theorem shrinkLoop_items_subset (m off : Nat) : ∀ (f : Nat) (p : PagePayload) (x : Json),
    x ∈ (shrinkLoop m off f p).items → x ∈ p.items := by
  intro f
  induction f with
  | zero => intro p x hx; exact hx
  | succ f ih =>
    intro p x hx
    rw [shrinkLoop.eq_def] at hx
    simp only [] at hx
    split at hx
    · exact List.dropLast_subset _ (ih (popItem off p) x hx)
    · exact hx

theorem shrinkLoop_missing (m off : Nat) : ∀ (f : Nat) (p : PagePayload),
    (shrinkLoop m off f p).missing_fields = p.missing_fields := by
  intro f
  induction f with
  | zero => intro p; rfl
  | succ f ih =>
    intro p
    rw [shrinkLoop.eq_def]
    simp only []
    split
    · rw [ih]; rfl
    · rfl

theorem emptyFallback_missing (m off : Nat) (p : PagePayload) :
    (emptyFallback m off p).missing_fields = p.missing_fields := by
  unfold emptyFallback
  split <;> rfl

theorem rawPageOf_subset (history : List Json) (off pageSize : Nat) :
    rawPageOf history off pageSize ⊆ history := by
  unfold rawPageOf listMessages
  intro x hx
  exact List.take_subset _ _ (List.drop_subset _ _ (List.take_subset _ _ hx))

/-- Any item of a returned page is the projection of some history
message. -/
theorem getMessages_items_mem (history : List Json) (sid : String)
    (limit mot : Option Int) (cursor : Option (List Char)) (fopt : Option (List String))
    (cd : CursorPayload) (p : PagePayload)
    (hdec : decodeCursor cursor = .ok cd)
    (hok : getMessagesCore history sid limit cursor mot fopt = .ok p) :
    ∀ item ∈ p.items, ∃ m ∈ history,
      item = (projectMessage m (parseRequestedFields fopt)).1 := by
  rw [getMessagesCore_ok history sid limit cursor mot fopt cd hdec] at hok
  have hp : p = emptyFallback (clampBudget mot) cd.offset.toNat
      (shrinkPayload (clampBudget mot) cd.offset.toNat
        (basePayload history sid cd.offset.toNat (clampLimit limit) (clampBudget mot)
          (parseRequestedFields fopt) cursor)) := by
    cases hok; rfl
  intro item hitem
  rw [hp] at hitem
  unfold emptyFallback at hitem
  split at hitem
  · cases hitem
  · have h1 : item ∈ (basePayload history sid cd.offset.toNat (clampLimit limit)
        (clampBudget mot) (parseRequestedFields fopt) cursor).items :=
      shrinkLoop_items_subset _ _ _ _ item hitem
    rw [basePayload_eq] at h1
    have h2 : item ∈ projectedOf history cd.offset.toNat (clampLimit limit)
        (parseRequestedFields fopt) := by
      obtain ⟨t, u, hsplit, hres⟩ := tWBG_split (clampBudget mot)
        (projectedOf history cd.offset.toNat (clampLimit limit)
          (parseRequestedFields fopt)) []
      have : item ∈ ([] : List Json) ++ t := hres ▸ h1
      rw [hsplit]
      simp only [List.nil_append] at this
      exact List.mem_append_left _ this
    obtain ⟨m, hm, hitem_eq⟩ := List.mem_map.mp h2
    exact ⟨m, rawPageOf_subset history cd.offset.toNat (clampLimit limit) hm, hitem_eq.symm⟩

end OC

namespace OC

theorem basePayload_missing (history : List Json) (sid : String) (off pageSize maxTok : Nat)
    (flds : List String) (cursor : Option (List Char)) :
    (basePayload history sid off pageSize maxTok flds cursor).missing_fields
      = missingOf history off pageSize flds := rfl

/-- C4 counterexample: with `fields = ["info.id"]` over a page of two
messages — one carrying `info.id`, one not — the reported `missing_fields`
is `["info.id"]` even though that path matched the first message, refuting
"exactly those requested field paths that matched zero messages in the
page". -/
theorem C4_missing_fields_union :
    (getMessagesCore [.obj [("info", .obj [("id", .str "a")])], .obj [("x", .num 1)]]
        "s" (some 2) none none (some ["info.id"])).map
        (fun p => (p.missing_fields, p.items,
          decide (pathExists (.obj [("info", .obj [("id", .str "a")])])
            (splitPath "info.id") = true)))
      = .ok (["info.id"], [.obj [("info", .obj [("id", .str "a")])], .obj []], true) := by
  decide

/-- C4 (amended): with a field list not containing `*`, each returned item
is the projection of some history message and contains only content under
the requested dot-separated paths (or collapses to the empty object);
per message, the missing list holds exactly the requested paths matching
nothing in that message; and the page-level `missing_fields` is the
page-order, first-occurrence deduplication of the per-message missing
lists — i.e. the requested paths that failed to match at least one message
of the page, not only those matching zero messages. -/
theorem C4_projection_and_missing (msg : Json) (fields : List String)
    (hstar : fields.contains "*" = false)
    (history : List Json) (sid : String) (limit mot : Option Int)
    (cursor : Option (List Char)) (fopt : Option (List String))
    (cd : CursorPayload) (p : PagePayload)
    (hdec : decodeCursor cursor = .ok cd)
    (hok : getMessagesCore history sid limit cursor mot fopt = .ok p)
    (hstar2 : (parseRequestedFields fopt).contains "*" = false) :
    ((projectMessage msg fields).1 = .obj []
      ∨ underPathsF (jsize msg) (projectMessage msg fields).1 (fields.map splitPath) = true)
    ∧ (projectMessage msg fields).2
        = fields.filter (fun field => !pathExists msg (splitPath field))
    ∧ (∀ item ∈ p.items, ∃ m ∈ history,
        item = (projectMessage m (parseRequestedFields fopt)).1)
    ∧ p.missing_fields
        = dedupFirst ((rawPageOf history cd.offset.toNat (clampLimit limit)).flatMap
            (fun m => (parseRequestedFields fopt).filter
              (fun field => !pathExists m (splitPath field)))) := by
  refine ⟨projectMessage_under msg fields hstar, projectMessage_missing msg fields hstar,
    getMessages_items_mem history sid limit mot cursor fopt cd p hdec hok, ?_⟩
  rw [getMessagesCore_ok history sid limit cursor mot fopt cd hdec] at hok
  have hp : p = emptyFallback (clampBudget mot) cd.offset.toNat
      (shrinkPayload (clampBudget mot) cd.offset.toNat
        (basePayload history sid cd.offset.toNat (clampLimit limit) (clampBudget mot)
          (parseRequestedFields fopt) cursor)) := by
    cases hok; rfl
  rw [hp, emptyFallback_missing]
  unfold shrinkPayload
  rw [shrinkLoop_missing, basePayload_missing]
  unfold missingOf
  congr 2
  funext m
  exact projectMessage_missing m _ hstar2

end OC

namespace OC

theorem C4_projection_and_missing_witness :
    ((["info.id"] : List String).contains "*" = false
      ∧ decodeCursor none = .ok ⟨0⟩
      ∧ getMessagesCore [.obj [("info", .obj [("id", .str "a")])], .obj [("x", .num 1)]]
          "s" (some 2) none none (some ["info.id"])
        = .ok (⟨"s", [.obj [("info", .obj [("id", .str "a")])], .obj []], 2, none, none,
            false, 0, 2, 5000, 6, false, "stop", ["info.id"], ["info.id"],
            none⟩ : PagePayload)
      ∧ (parseRequestedFields (some ["info.id"])).contains "*" = false)
    ∧ (((projectMessage (.obj [("info", .obj [("id", .str "a")])]) ["info.id"]).1 = .obj []
        ∨ underPathsF (jsize (.obj [("info", .obj [("id", .str "a")])]))
            (projectMessage (.obj [("info", .obj [("id", .str "a")])]) ["info.id"]).1
            ((["info.id"] : List String).map splitPath) = true)
      ∧ (projectMessage (.obj [("info", .obj [("id", .str "a")])]) ["info.id"]).2
          = (["info.id"] : List String).filter
              (fun field => !pathExists (.obj [("info", .obj [("id", .str "a")])])
                (splitPath field))
      ∧ (∀ item ∈ (⟨"s", [.obj [("info", .obj [("id", .str "a")])], .obj []], 2, none, none,
            false, 0, 2, 5000, 6, false, "stop", ["info.id"], ["info.id"],
            none⟩ : PagePayload).items,
          ∃ m ∈ [Json.obj [("info", .obj [("id", .str "a")])], .obj [("x", .num 1)]],
            item = (projectMessage m (parseRequestedFields (some ["info.id"]))).1)
      ∧ (⟨"s", [.obj [("info", .obj [("id", .str "a")])], .obj []], 2, none, none,
            false, 0, 2, 5000, 6, false, "stop", ["info.id"], ["info.id"],
            none⟩ : PagePayload).missing_fields
          = dedupFirst ((rawPageOf [.obj [("info", .obj [("id", .str "a")])],
                .obj [("x", .num 1)]] (0 : Int).toNat (clampLimit (some 2))).flatMap
              (fun m => (parseRequestedFields (some ["info.id"])).filter
                (fun field => !pathExists m (splitPath field))))) :=
  ⟨⟨by decide, by decide, by decide, by decide⟩,
    C4_projection_and_missing (.obj [("info", .obj [("id", .str "a")])]) ["info.id"]
      (by decide)
      [.obj [("info", .obj [("id", .str "a")])], .obj [("x", .num 1)]]
      "s" (some 2) none none (some ["info.id"]) ⟨0⟩
      (⟨"s", [.obj [("info", .obj [("id", .str "a")])], .obj []], 2, none, none,
        false, 0, 2, 5000, 6, false, "stop", ["info.id"], ["info.id"],
        none⟩ : PagePayload)
      (by decide) (by decide) (by decide)⟩

end OC

namespace OC

/-- A window message that counts as a reply to `tid`: an assistant message
whose `parentID` is `tid`. -/
def IsAssistantReplyTo (m : Json) (tid : String) : Prop :=
  getMessageRole m = some "assistant" ∧ getMessageParentId m = some tid

theorem findLatest_none (tid : String) : ∀ msgs : List Json,
    findLatestAssistantReplyByParentId msgs tid = none
      ↔ ∀ m ∈ msgs, ¬ IsAssistantReplyTo m tid := by
  intro msgs
  induction msgs with
  | nil =>
    constructor
    · intro _ m hm; cases hm
    · intro _; rfl
  | cons m rest ih =>
    rw [findLatestAssistantReplyByParentId.eq_def]
    simp only []
    cases hr : findLatestAssistantReplyByParentId rest tid with
    | some r =>
      constructor
      · intro h; cases h
      · intro h
        exfalso
        have hnone := ih.mpr (fun x hx => h x (List.mem_cons_of_mem m hx))
        rw [hnone] at hr
        cases hr
    | none =>
      by_cases hm : getMessageRole m = some "assistant"
          ∧ getMessageParentId m = some tid
      · rw [if_pos hm]
        constructor
        · intro h; cases h
        · intro h; exact absurd hm (h m (List.mem_cons_self m rest))
      · rw [if_neg hm]
        constructor
        · intro _ x hx
          rcases List.mem_cons.mp hx with h1 | h2
          · subst h1; exact hm
          · exact (ih.mp hr) x h2
        · intro _; rfl

theorem findLatest_some (tid : String) : ∀ (msgs : List Json) (r : Json),
    findLatestAssistantReplyByParentId msgs tid = some r →
    ∃ pre post, msgs = pre ++ r :: post ∧ IsAssistantReplyTo r tid
      ∧ ∀ m ∈ post, ¬ IsAssistantReplyTo m tid := by
  intro msgs
  induction msgs with
  | nil => intro r h; cases h
  | cons m rest ih =>
    intro r h
    rw [findLatestAssistantReplyByParentId.eq_def] at h
    simp only [] at h
    cases hr : findLatestAssistantReplyByParentId rest tid with
    | some r2 =>
      rw [hr] at h
      injection h with h
      subst h
      obtain ⟨pre, post, he, his, hpost⟩ := ih r2 hr
      exact ⟨m :: pre, post, by rw [he]; rfl, his, hpost⟩
    | none =>
      rw [hr] at h
      by_cases hm : getMessageRole m = some "assistant"
          ∧ getMessageParentId m = some tid
      · rw [if_pos hm] at h
        injection h with h
        subst h
        exact ⟨[], rest, rfl, hm, (findLatest_none tid rest).mp hr⟩
      · rw [if_neg hm] at h
        cases h

theorem resolveReply_eq (step : PollStep) (sid tid : String) (r : Json) :
    resolveReply step sid tid r
      = .resolved
          (if (getSessionStatusForSession step.statusRaw sid).map
              SessionStatusInfo.type = some "idle" then
            match step.refetch with
            | .ok refreshedMessages =>
              match findLatestAssistantReplyByParentId refreshedMessages tid with
              | some refreshedReply => refreshedReply
              | none => r
            | .error _ => r
          else r)
          (getMessageId (if (getSessionStatusForSession step.statusRaw sid).map
              SessionStatusInfo.type = some "idle" then
            match step.refetch with
            | .ok refreshedMessages =>
              match findLatestAssistantReplyByParentId refreshedMessages tid with
              | some refreshedReply => refreshedReply
              | none => r
            | .error _ => r
          else r))
          (decide ((getSessionStatusForSession step.statusRaw sid).map
              SessionStatusInfo.type = some "busy"
            ∨ (getSessionStatusForSession step.statusRaw sid).map
              SessionStatusInfo.type = some "retry"))
          (getSessionStatusForSession step.statusRaw sid) := rfl

/-- C5: when a polling iteration's fetched window contains a candidate
reply, the candidate the loop resolves on is the latest assistant message
in the window whose `parentID` is the target (nothing after it in the
window matches); the outcome's status is the session status read in that
iteration; when that status is `idle` the re-fetched window's freshest
matching candidate is preferred (and it is itself the latest match of the
re-fetched window); and the streaming flag is set exactly when the status
is `busy` or `retry`. -/
theorem C5_resolved_postcondition (step : PollStep) (rest : List PollStep)
    (sid tid : String) (msgs : List Json) (reply : Json)
    (hf : step.fetch = .ok msgs)
    (hm : findLatestAssistantReplyByParentId msgs tid = some reply) :
    ∃ pre post, msgs = pre ++ reply :: post ∧ IsAssistantReplyTo reply tid
      ∧ (∀ m ∈ post, ¬ IsAssistantReplyTo m tid)
      ∧ (∀ final, final = (if (getSessionStatusForSession step.statusRaw sid).map
            SessionStatusInfo.type = some "idle" then
            match step.refetch with
            | .ok refreshedMessages =>
              match findLatestAssistantReplyByParentId refreshedMessages tid with
              | some refreshedReply => refreshedReply
              | none => reply
            | .error _ => reply
          else reply) →
          waitLoop sid tid (step :: rest)
            = .resolved final (getMessageId final)
                (decide ((getSessionStatusForSession step.statusRaw sid).map
                    SessionStatusInfo.type = some "busy"
                  ∨ (getSessionStatusForSession step.statusRaw sid).map
                    SessionStatusInfo.type = some "retry"))
                (getSessionStatusForSession step.statusRaw sid)
          ∧ ((getSessionStatusForSession step.statusRaw sid).map
              SessionStatusInfo.type = some "idle" →
            ∀ refreshed r2, step.refetch = .ok refreshed →
              findLatestAssistantReplyByParentId refreshed tid = some r2 →
              final = r2 ∧ ∃ pre2 post2, refreshed = pre2 ++ r2 :: post2
                ∧ IsAssistantReplyTo r2 tid
                ∧ ∀ m ∈ post2, ¬ IsAssistantReplyTo m tid)) := by
  obtain ⟨pre, post, he, his, hpost⟩ := findLatest_some tid msgs reply hm
  refine ⟨pre, post, he, his, hpost, ?_⟩
  intro final hfinal
  constructor
  · rw [waitLoop.eq_def]
    simp only []
    rw [hf]
    simp only []
    rw [hm]
    simp only []
    rw [resolveReply_eq, ← hfinal]
  · intro hidle refreshed r2 hrefetch hfind
    rw [if_pos hidle, hrefetch] at hfinal
    simp only [] at hfinal
    rw [hfind] at hfinal
    simp only [] at hfinal
    exact ⟨hfinal, findLatest_some tid refreshed r2 hfind⟩

def sampleReply1 : Json :=
  .obj [("info", .obj [("id", .str "r1"), ("role", .str "assistant"),
    ("parentID", .str "m")])]

def sampleReply2 : Json :=
  .obj [("info", .obj [("id", .str "r2"), ("role", .str "assistant"),
    ("parentID", .str "m")])]

def sampleStep : PollStep :=
  ⟨.ok [sampleReply1], .obj [("s", .obj [("type", .str "idle")])],
    .ok [sampleReply1, sampleReply2], .null⟩

theorem C5_resolved_postcondition_witness :
    (sampleStep.fetch = .ok [sampleReply1]
      ∧ findLatestAssistantReplyByParentId [sampleReply1] "m" = some sampleReply1)
    ∧ ∃ pre post, [sampleReply1] = pre ++ sampleReply1 :: post
        ∧ IsAssistantReplyTo sampleReply1 "m"
        ∧ (∀ m ∈ post, ¬ IsAssistantReplyTo m "m")
        ∧ (∀ final, final = (if (getSessionStatusForSession sampleStep.statusRaw "s").map
              SessionStatusInfo.type = some "idle" then
              match sampleStep.refetch with
              | .ok refreshedMessages =>
                match findLatestAssistantReplyByParentId refreshedMessages "m" with
                | some refreshedReply => refreshedReply
                | none => sampleReply1
              | .error _ => sampleReply1
            else sampleReply1) →
            waitLoop "s" "m" [sampleStep]
              = .resolved final (getMessageId final)
                  (decide ((getSessionStatusForSession sampleStep.statusRaw "s").map
                      SessionStatusInfo.type = some "busy"
                    ∨ (getSessionStatusForSession sampleStep.statusRaw "s").map
                      SessionStatusInfo.type = some "retry"))
                  (getSessionStatusForSession sampleStep.statusRaw "s")
            ∧ ((getSessionStatusForSession sampleStep.statusRaw "s").map
                SessionStatusInfo.type = some "idle" →
              ∀ refreshed r2, sampleStep.refetch = .ok refreshed →
                findLatestAssistantReplyByParentId refreshed "m" = some r2 →
                final = r2 ∧ ∃ pre2 post2, refreshed = pre2 ++ r2 :: post2
                  ∧ IsAssistantReplyTo r2 "m"
                  ∧ ∀ m ∈ post2, ¬ IsAssistantReplyTo m "m")) :=
  ⟨⟨rfl, by decide⟩,
    C5_resolved_postcondition sampleStep [] "s" "m" [sampleReply1] sampleReply1
      rfl (by decide)⟩

end OC

namespace OC

/-- The cursor argument a client uses to request the page at `off`: no
cursor for the first page, the encoded offset otherwise. -/
def cursorFor (off : Nat) : Option (List Char) :=
  if off = 0 then none else some (encodeCursor ⟨(off : Int)⟩)

theorem decodeCursor_cursorFor (off : Nat) :
    decodeCursor (cursorFor off) = .ok ⟨(off : Int)⟩ := by
  unfold cursorFor
  by_cases h : off = 0
  · rw [if_pos h]; subst h; rfl
  · rw [if_neg h]
    exact decode_encode_cursor ⟨(off : Int)⟩ (Int.natCast_nonneg off)

theorem rawPageOf_eq (history : List Json) (off ps : Nat) :
    rawPageOf history off ps = (history.drop off).take ps := by
  unfold rawPageOf listMessages
  rw [List.drop_take]
  have h1 : off + ps + 1 - off = ps + 1 := by omega
  rw [h1, List.take_take ps (ps + 1) (history.drop off)]
  have h2 : min ps (ps + 1) = ps := by omega
  rw [h2]

theorem projectedOf_star (history : List Json) (off pageSize : Nat) :
    projectedOf history off pageSize ["*"] = rawPageOf history off pageSize := by
  unfold projectedOf
  have h : (fun m => (projectMessage m ["*"]).1) = (fun m : Json => m) := rfl
  rw [h]
  exact List.map_id' (rawPageOf history off pageSize)

theorem shrinkLoop_truncated_mono (m off : Nat) : ∀ (f : Nat) (p : PagePayload),
    p.truncated = true → (shrinkLoop m off f p).truncated = true := by
  intro f
  induction f with
  | zero => intro p h; exact h
  | succ f ih =>
    intro p h
    rw [shrinkLoop.eq_def]
    simp only []
    split
    · exact ih (popItem off p) rfl
    · exact h

theorem shrinkLoop_untruncated (m off : Nat) : ∀ (f : Nat) (p : PagePayload),
    (shrinkLoop m off f p).truncated = false → shrinkLoop m off f p = p := by
  intro f
  induction f with
  | zero => intro p _; rfl
  | succ f ih =>
    intro p h
    by_cases hc : estimateTokensFromObject (payloadJson p) > m ∧ p.items.length > 0
    · exfalso
      rw [shrinkLoop.eq_def] at h
      simp only [] at h
      rw [if_pos hc] at h
      have := shrinkLoop_truncated_mono m off f (popItem off p) rfl
      rw [h] at this
      cases this
    · rw [shrinkLoop.eq_def]
      simp only []
      rw [if_neg hc]

theorem emptyFallback_untruncated (m off : Nat) (p : PagePayload)
    (h : (emptyFallback m off p).truncated = false) :
    emptyFallback m off p = p := by
  by_cases hc : estimateTokensFromObject (payloadJson p) > m
  · exfalso
    unfold emptyFallback at h
    rw [if_pos hc] at h
    cases h
  · unfold emptyFallback
    rw [if_neg hc]

/-- What an untruncated `opencode_get_messages` call at offset `off` with
`fields = ["*"]` returns: the page slice itself, a `has_more` flag that is
exact against the full history, and a matching continuation cursor. -/
theorem getMessages_untruncated (history : List Json) (sid : String) (mot : Option Int)
    (pageSize : Nat) (h1 : 1 ≤ pageSize) (h2 : pageSize ≤ 200)
    (off : Nat) (p : PagePayload)
    (hok : getMessagesCore history sid (some (pageSize : Int)) (cursorFor off) mot
        (some ["*"]) = .ok p)
    (hnt : p.truncated = false) :
    p.items = (history.drop off).take pageSize
    ∧ p.has_more = decide (off + p.items.length < history.length)
    ∧ p.next_cursor = (if off + p.items.length < history.length
        then some (encodeCursor ⟨((off + p.items.length : Nat) : Int)⟩) else none) := by
  have hcl : clampLimit (some (pageSize : Int)) = pageSize := by
    unfold clampLimit
    simp only [Option.getD_some]
    omega
  have hpr : parseRequestedFields (some ["*"]) = ["*"] := by decide
  rw [getMessagesCore_ok history sid (some (pageSize : Int)) (cursorFor off) mot
    (some ["*"]) ⟨(off : Int)⟩ (decodeCursor_cursorFor off)] at hok
  have hoffn : (⟨(off : Int)⟩ : CursorPayload).offset.toNat = off := Int.toNat_natCast off
  rw [hoffn, hcl, hpr] at hok
  have hp : p = emptyFallback (clampBudget mot) off
      (shrinkPayload (clampBudget mot) off
        (basePayload history sid off pageSize (clampBudget mot) ["*"] (cursorFor off))) := by
    cases hok; rfl
  have hfb : emptyFallback (clampBudget mot) off
      (shrinkPayload (clampBudget mot) off
        (basePayload history sid off pageSize (clampBudget mot) ["*"] (cursorFor off)))
      = shrinkPayload (clampBudget mot) off
        (basePayload history sid off pageSize (clampBudget mot) ["*"] (cursorFor off)) :=
    emptyFallback_untruncated _ _ _ (by rw [← hp]; exact hnt)
  rw [hfb] at hp
  have hsh : shrinkPayload (clampBudget mot) off
      (basePayload history sid off pageSize (clampBudget mot) ["*"] (cursorFor off))
      = basePayload history sid off pageSize (clampBudget mot) ["*"] (cursorFor off) :=
    shrinkLoop_untruncated (clampBudget mot) off
      (basePayload history sid off pageSize (clampBudget mot) ["*"] (cursorFor off)).items.length
      (basePayload history sid off pageSize (clampBudget mot) ["*"] (cursorFor off))
      (by rw [hp] at hnt; exact hnt)
  rw [hsh] at hp
  have hitems : p.items = (takeWithinBudget (projectedOf history off pageSize ["*"])
      (clampBudget mot)).1 := by
    rw [hp, basePayload_eq]
  have htr2 : (takeWithinBudget (projectedOf history off pageSize ["*"])
      (clampBudget mot)).2 = false := by
    rw [hp] at hnt
    exact hnt
  have hfull : (takeWithinBudget (projectedOf history off pageSize ["*"])
      (clampBudget mot)).1 = projectedOf history off pageSize ["*"] := by
    have hx := tWBG_untruncated (clampBudget mot) (projectedOf history off pageSize ["*"])
      [] htr2
    simpa using hx
  have hitems2 : p.items = (history.drop off).take pageSize := by
    rw [hitems, hfull, projectedOf_star, rawPageOf_eq]
  have hhm0 : hasMoreOf history off pageSize (clampBudget mot) ["*"]
      = decide (off + p.items.length < history.length) := by
    unfold hasMoreOf
    rw [hfull]
    rw [decide_eq_false (by omega : ¬(off + (projectedOf history off pageSize ["*"]).length
      < off + (projectedOf history off pageSize ["*"]).length))]
    rw [Bool.false_or]
    apply decide_eq_decide.mpr
    rw [rawPageOf_eq, hitems2]
    unfold listMessages
    simp only [List.length_take, List.length_drop]
    omega
  have hhm1 : p.has_more = hasMoreOf history off pageSize (clampBudget mot) ["*"] := by
    rw [hp, basePayload_eq]
  have hnc1 : p.next_cursor = (if hasMoreOf history off pageSize (clampBudget mot) ["*"]
      then some (encodeCursor ⟨((off + (takeWithinBudget
        (projectedOf history off pageSize ["*"]) (clampBudget mot)).1.length : Nat) : Int)⟩)
      else none) := by
    rw [hp, basePayload_eq]
    simp only [Nat.cast_add]
  refine ⟨hitems2, ?_, ?_⟩
  · rw [hhm1]
    exact hhm0
  · rw [hnc1, hhm0, ← hitems]
    by_cases hcase : off + p.items.length < history.length
    · simp [hcase]
    · simp [hcase]

end OC

namespace OC

/-- Whether the call at offset `off` avoids budget truncation (a failed
call counts as vacuously untruncated). -/
def untruncatedAt (history : List Json) (sid : String) (ps mot : Option Int)
    (off : Nat) : Bool :=
  match getMessagesCore history sid ps (cursorFor off) mot (some ["*"]) with
  | .ok p => !p.truncated
  | .error _ => true

/-- A client chaining `opencode_get_messages` calls: start from a cursor,
follow each returned `next_cursor` while `has_more` holds, collect the
pages; `none` when the fuel runs out, a call fails, or a response pairs
`has_more` with `next_cursor` inconsistently. -/
def pageChain (history : List Json) (sid : String) (ps mot : Option Int) :
    Nat → Option (List Char) → Option (List (List Json))
  | 0, _ => none
  | f + 1, cur =>
    match getMessagesCore history sid ps cur mot (some ["*"]) with
    | .error _ => none
    | .ok p =>
      match p.next_cursor, p.has_more with
      | some nc, true =>
        (pageChain history sid ps mot f (some nc)).map (fun pages => p.items :: pages)
      | none, false => some [p.items]
      | _, _ => none

theorem pageChain_drop (history : List Json) (sid : String) (mot : Option Int)
    (pageSize : Nat) (h1 : 1 ≤ pageSize) (h2 : pageSize ≤ 200)
    (hnt : ∀ off, off ≤ history.length →
      untruncatedAt history sid (some (pageSize : Int)) mot off = true) :
    ∀ (fuel off : Nat), off ≤ history.length → history.length - off < fuel →
    ∃ pages, pageChain history sid (some (pageSize : Int)) mot fuel (cursorFor off)
        = some pages
      ∧ pages.flatten = history.drop off := by
  intro fuel
  induction fuel with
  | zero => intro off _ hlt; omega
  | succ fuel ih =>
    intro off hoff hlt
    obtain ⟨p, hok⟩ : ∃ p, getMessagesCore history sid (some (pageSize : Int))
        (cursorFor off) mot (some ["*"]) = .ok p := by
      cases hcall : getMessagesCore history sid (some (pageSize : Int))
          (cursorFor off) mot (some ["*"]) with
      | ok p => exact ⟨p, rfl⟩
      | error e =>
        rw [getMessagesCore_ok history sid (some (pageSize : Int)) (cursorFor off) mot
          (some ["*"]) ⟨(off : Int)⟩ (decodeCursor_cursorFor off)] at hcall
        cases hcall
    have hpnt : p.truncated = false := by
      have hu := hnt off hoff
      unfold untruncatedAt at hu
      rw [hok] at hu
      simpa using hu
    obtain ⟨hi, hhm, hnc⟩ := getMessages_untruncated history sid mot pageSize h1 h2
      off p hok hpnt
    rw [pageChain.eq_def]
    simp only []
    rw [hok]
    simp only []
    by_cases hmore : off + p.items.length < history.length
    · have hlen : p.items.length = pageSize := by
        rw [hi]
        rw [hi] at hmore
        simp only [List.length_take, List.length_drop] at hmore ⊢
        omega
      rw [hnc, hhm, if_pos hmore, decide_eq_true hmore]
      simp only []
      have hstep : some (encodeCursor ⟨((off + p.items.length : Nat) : Int)⟩)
          = cursorFor (off + p.items.length) := by
        unfold cursorFor
        rw [if_neg (by omega)]
      rw [hstep]
      obtain ⟨pages, hpc, hflat⟩ := ih (off + p.items.length)
        (le_of_lt hmore) (by omega)
      rw [hpc]
      have hdd : history.drop (off + p.items.length)
          = (history.drop off).drop pageSize := by
        rw [List.drop_drop, hlen]
      refine ⟨p.items :: pages, rfl, ?_⟩
      show p.items ++ pages.flatten = history.drop off
      rw [hflat, hdd, hi]
      exact List.take_append_drop pageSize (history.drop off)
    · have hdone : p.items = history.drop off := by
        rw [hi]
        apply List.take_of_length_le
        rw [hi] at hmore
        simp only [List.length_take, List.length_drop] at hmore ⊢
        omega
      rw [hnc, hhm, if_neg hmore, decide_eq_false hmore]
      simp only []
      exact ⟨[p.items], rfl, by simp [hdone]⟩

/-- C1 (spec-modelled remote): over any fixed history served by the
modelled `listMessages` endpoint, with a page size within the accepted
1–200 range, `fields = ["*"]` and a budget that never truncates any page of
the run, chaining `opencode_get_messages` calls from no cursor through each
returned `next_cursor` terminates and enumerates the whole history exactly
once, in order — the chain's final call reporting `has_more = false` with
no `next_cursor` (the chain only stops on that combination). -/
theorem C1_pagination_exhaustive (history : List Json) (sid : String)
    (pageSize : Nat) (mot : Option Int) (h1 : 1 ≤ pageSize) (h2 : pageSize ≤ 200)
    (hnt : ∀ off, off ≤ history.length →
      untruncatedAt history sid (some (pageSize : Int)) mot off = true) :
    ∃ pages, pageChain history sid (some (pageSize : Int)) mot (history.length + 1) none
        = some pages
      ∧ pages.flatten = history := by
  have hx := pageChain_drop history sid mot pageSize h1 h2 hnt (history.length + 1) 0
    (Nat.zero_le _) (by omega)
  have hc0 : cursorFor 0 = none := rfl
  rw [hc0] at hx
  simpa using hx

theorem C1_pagination_exhaustive_witness :
    (1 ≤ 2 ∧ 2 ≤ 200
      ∧ ∀ off, off ≤ ([Json.obj [("a", .num 1)], .obj [("b", .num 2)],
          .obj [("c", .num 3)]] : List Json).length →
        untruncatedAt [.obj [("a", .num 1)], .obj [("b", .num 2)], .obj [("c", .num 3)]]
          "s" (some (2 : Int)) none off = true)
    ∧ ∃ pages, pageChain [.obj [("a", .num 1)], .obj [("b", .num 2)], .obj [("c", .num 3)]]
          "s" (some (2 : Int)) none
          (([Json.obj [("a", .num 1)], .obj [("b", .num 2)],
            .obj [("c", .num 3)]] : List Json).length + 1) none
        = some pages
      ∧ pages.flatten = [.obj [("a", .num 1)], .obj [("b", .num 2)], .obj [("c", .num 3)]] :=
  ⟨⟨by decide, by decide, by decide⟩,
    C1_pagination_exhaustive
      [.obj [("a", .num 1)], .obj [("b", .num 2)], .obj [("c", .num 3)]]
      "s" 2 none (by decide) (by decide) (by decide)⟩

end OC
